import Mathlib

/-!
Verification development for the kalavara email-to-transaction extraction
pipeline.  The TypeScript sources under `src/lib` and `src/app/api/sync` are
shallowly embedded: JavaScript strings become `List Char`, JS numbers become
`ℚ` (with `Math.round` as floor of `x + 1/2`), JS `Map` becomes an
association list with overwrite-on-set semantics, and the two external
oracles (the LLM completion API for fallback parsing and categorization) as
well as the external libraries (`html-to-text`, native `Date` parsing)
become explicit function parameters.  Regular-expression literals from the
source are transcribed into a small abstract syntax and executed by a
backtracking matcher whose priority order (leftmost start, left alternative
first, greedy/lazy quantifiers) mirrors the JavaScript engine.
-/

namespace KV

/-- JavaScript strings are modelled as lists of characters. -/
abbrev Str := List Char

/-- Coerce a Lean string literal to the `Str` model. -/
def str (s : String) : Str := s.data

/-- ASCII whitespace recognized by JS `\s`, `trim`, and `parseFloat` skipping
(space, tab, newline, carriage return, vertical tab, form feed). -/
def isJsSpace (c : Char) : Bool :=
  c = ' ' || c = '\t' || c = '\n' || c = '\x0d' || c = '\x0b' || c = '\x0c'

/-- JS regex word character `\w`: `[A-Za-z0-9_]`. -/
def isWordC (c : Char) : Bool :=
  ('a' ≤ c && c ≤ 'z') || ('A' ≤ c && c ≤ 'Z') || ('0' ≤ c && c ≤ '9') || c = '_'

/-- ASCII lower-casing, as JS `toLowerCase` acts on the characters appearing
in these emails. -/
def lowerC (c : Char) : Char :=
  if 'A' ≤ c && c ≤ 'Z' then Char.ofNat (c.toNat + 32) else c

/-- ASCII upper-casing (used for case-insensitive class matching). -/
def upperC (c : Char) : Char :=
  if 'a' ≤ c && c ≤ 'z' then Char.ofNat (c.toNat - 32) else c

/-- JS `String.prototype.toLowerCase` on the model. -/
def toLowerStr (s : Str) : Str := s.map lowerC

/-- JS `String.prototype.trim`. -/
def trimStr (s : Str) : Str :=
  ((s.dropWhile isJsSpace).reverse.dropWhile isJsSpace).reverse

/-- JS `String.prototype.substring(0, n)`. -/
def takeStr (n : Nat) (s : Str) : Str := s.take n

/-- JS `String.prototype.includes` (substring containment). -/
def includesStr (hay needle : Str) : Bool :=
  (List.range (hay.length + 1)).any fun i => needle.isPrefixOf (hay.drop i)

/-- JS `String.prototype.split` on a single separator character. -/
def splitOnC (sep : Char) (s : Str) : List Str :=
  s.splitOn sep

/-- Digits of a numeral, most significant first, to a natural number. -/
def digitsVal (ds : Str) : Nat :=
  ds.foldl (fun a c => a * 10 + (c.toNat - '0'.toNat)) 0

/-! ### JS numbers

JS numbers are modelled as exact fractions `JQ` (numerator over a positive
denominator, not necessarily reduced), so that every computation of the
pipeline is kernel-executable (`Rat`'s gcd-normalizing arithmetic is not).
The valuation `jval` into `ℚ` gives the mathematical value; every `JQ`
built by the pipeline has a positive denominator. -/

/-- An exact JS number: the fraction `n / d`. -/
structure JQ where
  n : ℤ
  d : ℤ
deriving DecidableEq, Repr

/-- The integer `a` as a `JQ`. -/
def jq (a : ℤ) : JQ := ⟨a, 1⟩

/-- The literal fraction `a / b`. -/
def jqd (a b : ℤ) : JQ := ⟨a, b⟩

/-- Addition. -/
def jadd (x y : JQ) : JQ := ⟨x.n * y.d + y.n * x.d, x.d * y.d⟩

/-- Multiplication. -/
def jmul (x y : JQ) : JQ := ⟨x.n * y.n, x.d * y.d⟩

/-- Negation. -/
def jneg (x : JQ) : JQ := ⟨-x.n, x.d⟩

/-- Subtraction. -/
def jsub (x y : JQ) : JQ := jadd x (jneg y)

/-- JS `<` (for fractions with positive denominators). -/
def jlt (x y : JQ) : Bool := decide (x.n * y.d < y.n * x.d)

/-- JS `<=` (for fractions with positive denominators). -/
def jle (x y : JQ) : Bool := decide (x.n * y.d ≤ y.n * x.d)

/-- Is the value zero? -/
def jisZero (x : JQ) : Bool := decide (x.n = 0)

/-- `Math.min`. -/
def jmin (x y : JQ) : JQ := if jle x y then x else y

/-- The mathematical value of a `JQ`. -/
def jval (x : JQ) : ℚ := (x.n : ℚ) / (x.d : ℚ)

/-! ### Binary64 rounding

Where the distinction is observable, JavaScript number arithmetic is
IEEE-754 binary64: a numeric literal denotes the binary64 value nearest to
its decimal, and each addition or multiplication rounds its exact result to
53 significant bits (round to nearest, ties to even).  The magnitudes in
the computations modelled this way lie far inside the normal range, so
overflow and subnormals never arise and rounding to 53 significant bits is
exact binary64 rounding for them.  `dnorm` rounds an exact fraction to the
nearest binary64 value, represented as an exact `JQ` whose denominator is a
power of two. -/

/-- Number of binary digits of a natural number (fuel-bounded; fuel 128
covers every number these computations produce). -/
def bitLen : Nat → Nat → Nat
  | 0, _ => 0
  | fuel + 1, n => if n = 0 then 0 else bitLen fuel (n / 2) + 1

/-- Is the fraction `a / b` at least `2 ^ e`? -/
def gePow2 (a b : Nat) (e : Int) : Bool :=
  if 0 ≤ e then b * 2 ^ e.toNat ≤ a else b ≤ a * 2 ^ (-e).toNat

/-- Floor of the base-2 logarithm of the positive fraction `a / b`. -/
def ilog2 (a b : Nat) : Int :=
  let e0 : Int := (bitLen 128 a : Int) - (bitLen 128 b : Int)
  if gePow2 a b e0 then e0 else e0 - 1

/-- Round the positive fraction `a / b` to 53 significant bits (round to
nearest, ties to even), as an exact fraction. -/
def dnormPos (a b : Nat) : JQ :=
  let shift : Int := 52 - ilog2 a b
  let nd : Nat × Nat :=
    if 0 ≤ shift then (a * 2 ^ shift.toNat, b) else (a, b * 2 ^ (-shift).toNat)
  let m0 := nd.1 / nd.2
  let r := nd.1 % nd.2
  let m := if nd.2 < 2 * r then m0 + 1
    else if 2 * r < nd.2 then m0
    else if m0 % 2 = 0 then m0 else m0 + 1
  if 0 ≤ shift then ⟨(m : Int), ((2 ^ shift.toNat : Nat) : Int)⟩
  else ⟨((m * 2 ^ (-shift).toNat : Nat) : Int), 1⟩

/-- Round an exact fraction to the nearest binary64 value. -/
def dnorm (x : JQ) : JQ :=
  if 0 < x.n * x.d then dnormPos x.n.natAbs x.d.natAbs
  else if x.n * x.d < 0 then jneg (dnormPos x.n.natAbs x.d.natAbs)
  else ⟨0, 1⟩

/-- Binary64 addition of exact binary64 values. -/
def dadd (x y : JQ) : JQ := dnorm (jadd x y)

/-- Binary64 multiplication of exact binary64 values. -/
def dmul (x y : JQ) : JQ := dnorm (jmul x y)

/-- The binary64 value denoted by the decimal literal `a / b`. -/
def dlit (a b : ℤ) : JQ := dnorm (jqd a b)

/-- Split an optional leading sign (returns `true` when negative). -/
def splitSign (s : Str) : Bool × Str :=
  match s with
  | '-' :: t => (true, t)
  | '+' :: t => (false, t)
  | t => (false, t)

/-- The fractional digits after the integer part of a `parseFloat` input. -/
def jsPFfrac (s3 : Str) : Str :=
  match s3 with
  | '.' :: t => t.takeWhile Char.isDigit
  | _ => []

/-- What remains of a `parseFloat` input after the fractional part. -/
def jsPFrest (s3 : Str) : Str :=
  match s3 with
  | '.' :: t => t.drop (t.takeWhile Char.isDigit).length
  | t => t

/-- Apply an optional exponent suffix (`e`/`E`, optional sign, digits) to a
parsed mantissa. -/
def jsPFexp (mant : JQ) (s4 : Str) : JQ :=
  match s4 with
  | e :: rest =>
    if e = 'e' ∨ e = 'E' then
      if (splitSign rest).2.takeWhile Char.isDigit = [] then mant
      else if (splitSign rest).1 then
        ⟨mant.n, mant.d * ((10 ^ digitsVal ((splitSign rest).2.takeWhile Char.isDigit) : ℕ) : ℤ)⟩
      else
        ⟨mant.n * ((10 ^ digitsVal ((splitSign rest).2.takeWhile Char.isDigit) : ℕ) : ℤ), mant.d⟩
    else mant
  | [] => mant

/-- The unsigned magnitude of a `parseFloat` input: decimal digits with an
optional fractional part and an optional exponent; `none` models `NaN`. -/
def jsPFmag (s2 : Str) : Option JQ :=
  if s2.takeWhile Char.isDigit = [] ∧ jsPFfrac (s2.drop (s2.takeWhile Char.isDigit).length) = []
  then none
  else some (jsPFexp
    ⟨((digitsVal (s2.takeWhile Char.isDigit)
          * 10 ^ (jsPFfrac (s2.drop (s2.takeWhile Char.isDigit).length)).length
        + digitsVal (jsPFfrac (s2.drop (s2.takeWhile Char.isDigit).length)) : ℕ) : ℤ),
     (((10 : ℕ) ^ (jsPFfrac (s2.drop (s2.takeWhile Char.isDigit).length)).length : ℕ) : ℤ)⟩
    (jsPFrest (s2.drop (s2.takeWhile Char.isDigit).length)))

/-- Model of JS `parseFloat`: skip leading whitespace, optional sign, then
the magnitude.  (The `Infinity` literal, never produced by the source's
regex captures, is not modelled.) -/
def jsParseFloat (s : Str) : Option JQ :=
  if (splitSign (s.dropWhile isJsSpace)).1 then
    (jsPFmag (splitSign (s.dropWhile isJsSpace)).2).map jneg
  else jsPFmag (splitSign (s.dropWhile isJsSpace)).2

/-- JS `Math.round`: round half toward positive infinity, i.e. the floor of
`x + 1/2` (for a positive denominator). -/
def jsRound (x : JQ) : ℤ := (2 * x.n + x.d).fdiv (2 * x.d)

/-- Truthiness of an optional integer-valued JS number (`null`, `NaN` and `0`
are falsy; `none` models both `null` and `NaN`). -/
def falsyZ (o : Option ℤ) : Bool :=
  match o with
  | none => true
  | some z => z = 0

/-- Truthiness of an optional JS string (`null`/`undefined` and `""` are
falsy). -/
def falsyS (o : Option Str) : Bool :=
  match o with
  | none => true
  | some s => s = []

/-- JS `a || b` for optional strings with a string default. -/
def jsOrS (o : Option Str) (d : Str) : Str :=
  match o with
  | some s => if s = [] then d else s
  | none => d

/-- JS `a || null` for optional strings: an empty string collapses to null. -/
def jsOrNullS (o : Option Str) : Option Str :=
  match o with
  | some s => if s = [] then none else some s
  | none => none

/-- JS `a || b` for optional numbers with a default (`0` is falsy). -/
def jsOrQ (o : Option JQ) (d : JQ) : JQ :=
  match o with
  | some q => if jisZero q then d else q
  | none => d

/-- Truthiness of the optional API-key string. -/
def jsKey (o : Option Str) : Bool :=
  match o with
  | none => false
  | some s => decide (s ≠ [])

/-! ### The JS `Map` model

JavaScript `Map` objects as used by the batched LLM parser and the batched
categorizer: an association list whose `set` removes any previous binding of
the key.  Only `set`, `get` and `has` are used by the source. -/

/-- Association-list model of a JS `Map` keyed by strings. -/
def RMap (β : Type) := List (Str × β)

/-- The empty map (`new Map()`). -/
def mempty {β : Type} : RMap β := []

/-- Remove every binding of a key. -/
def mrem {β : Type} : RMap β → Str → RMap β
  | [], _ => []
  | p :: t, k => if p.1 = k then mrem t k else p :: mrem t k

/-- `Map.prototype.set`: overwrite any existing binding. -/
def mset {β : Type} (m : RMap β) (k : Str) (v : β) : RMap β :=
  (k, v) :: mrem m k

/-- `Map.prototype.get`. -/
def mget {β : Type} : RMap β → Str → Option β
  | [], _ => none
  | p :: t, k => if p.1 = k then some p.2 else mget t k

/-- `Map.prototype.has`. -/
def mhas {β : Type} (m : RMap β) (k : Str) : Bool :=
  (mget m k).isSome

/-- The keys of the map model. -/
def mkeys {β : Type} (m : RMap β) : List Str := m.map Prod.fst

/-- The values of the map model. -/
def mvals {β : Type} (m : RMap β) : List β := m.map Prod.snd

/-! ### A small backtracking regex matcher

The source's regex literals are transcribed into the abstract syntax `Rx`
below and executed by `mrun`, a backtracking matcher that enumerates the
outcome states of a subexpression in the JavaScript engine's priority order:
left alternative first, greedy repetition longest-first, lazy repetition
shortest-first.  `rxSearch` then scans start positions left to right, so the
overall winner is the same match the JS engine reports.  A fuel argument
bounds the recursion depth; it is always called with fuel exceeding any
possible derivation depth (`4 * length + 400`). -/

/-- One item of a character class. -/
inductive CItem where
  | ch : Char → CItem
  | range : Char → Char → CItem
  | digit : CItem
  | space : CItem
  | word : CItem
deriving DecidableEq, Repr

/-- Regex abstract syntax (the fragment used by the source's literals). -/
inductive Rx where
  | eps : Rx
  | lit : Char → Rx
  | cls : Bool → List CItem → Rx
  | seq : Rx → Rx → Rx
  | alt : Rx → Rx → Rx
  | rep : Nat → Option Nat → Bool → Rx → Rx
  | grp : Nat → Rx → Rx
  | wb : Rx
  | eos : Rx
deriving DecidableEq, Repr

/-- Does a class item accept a character (case-sensitively)? -/
def citemHit (it : CItem) (c : Char) : Bool :=
  match it with
  | .ch d => c = d
  | .range lo hi => lo ≤ c && c ≤ hi
  | .digit => c.isDigit
  | .space => isJsSpace c
  | .word => isWordC c

/-- Class membership, honoring the case-insensitive flag the way the JS
engine does (a character matches if it, its lower-case or its upper-case
variant hits an item). -/
def clsHit (ci : Bool) (items : List CItem) (c : Char) : Bool :=
  items.any fun it =>
    citemHit it c || (ci && (citemHit it (lowerC c) || citemHit it (upperC c)))

/-- Literal character comparison under the case-insensitivity flag. -/
def litEq (ci : Bool) (a b : Char) : Bool :=
  a = b || (ci && lowerC a = lowerC b)

/-- Captured groups: group index to captured characters (overwritten on
re-capture, as in JS). -/
abbrev Caps := List (Nat × Str)

/-- Record a capture. -/
def capSet (cp : Caps) (i : Nat) (s : Str) : Caps :=
  (i, s) :: cp.filter (fun p => p.1 ≠ i)

/-- Look up a capture (`none` models an `undefined` group). -/
def capGet (cp : Caps) (i : Nat) : Option Str :=
  (cp.find? (fun p => p.1 = i)).map Prod.snd

/-- Is the boundary between `prev` and the head of `s` a `\b` boundary? -/
def atWb (prev : Option Char) (s : Str) : Bool :=
  (match prev with | some c => isWordC c | none => false)
    ≠ (match s with | c :: _ => isWordC c | [] => false)

/-- Decrement an optional repetition bound. -/
def decO (o : Option Nat) : Option Nat :=
  match o with
  | some n => some (n - 1)
  | none => none

/-- An intermediate matcher state: character before the remaining input,
remaining input, captures so far. -/
abbrev MState := Option Char × Str × Caps

/-- Enumerate the outcome states of matching `r` against the front of `s`,
in JS backtracking priority order. -/
def mrun (ci : Bool) : Nat → Rx → Option Char → Str → Caps → List MState
  | 0, _, _, _, _ => []
  | _ + 1, .eps, pv, s, cp => [(pv, s, cp)]
  | _ + 1, .lit c, _pv, s, cp =>
    match s with
    | [] => []
    | a :: t => if litEq ci a c then [(some a, t, cp)] else []
  | _ + 1, .cls pos items, _pv, s, cp =>
    match s with
    | [] => []
    | a :: t => if clsHit ci items a = pos then [(some a, t, cp)] else []
  | fuel + 1, .seq r1 r2, pv, s, cp =>
    (mrun ci fuel r1 pv s cp).flatMap fun st => mrun ci fuel r2 st.1 st.2.1 st.2.2
  | fuel + 1, .alt r1 r2, pv, s, cp =>
    mrun ci fuel r1 pv s cp ++ mrun ci fuel r2 pv s cp
  | fuel + 1, .grp i r1, pv, s, cp =>
    (mrun ci fuel r1 pv s cp).map fun st =>
      (st.1, st.2.1, capSet st.2.2 i (s.take (s.length - st.2.1.length)))
  | _ + 1, .wb, pv, s, cp => if atWb pv s then [(pv, s, cp)] else []
  | _ + 1, .eos, pv, s, cp => if s = [] then [(pv, s, cp)] else []
  | fuel + 1, .rep lo hi lazily r1, pv, s, cp =>
    match lo with
    | lo0 + 1 =>
      (mrun ci fuel r1 pv s cp).flatMap fun st =>
        mrun ci fuel (.rep lo0 (decO hi) lazily r1) st.1 st.2.1 st.2.2
    | 0 =>
      match hi with
      | some 0 => [(pv, s, cp)]
      | _ =>
        let more := (mrun ci fuel r1 pv s cp).flatMap fun st =>
          if st.2.1.length = s.length then []
          else mrun ci fuel (.rep 0 (decO hi) lazily r1) st.1 st.2.1 st.2.2
        if lazily then (pv, s, cp) :: more else more ++ [(pv, s, cp)]

/-- Fuel comfortably above any derivation depth on input `s`. -/
def engineFuel (s : Str) : Nat := 4 * s.length + 400

/-- The character just before position `i` of `s`. -/
def prevAt (s : Str) (i : Nat) : Option Char :=
  if i = 0 then none else s.get? (i - 1)

/-- A successful search: start index, matched text (`match[0]`) and
captures. -/
structure RxMatch where
  start : Nat
  matched : Str
  caps : Caps
deriving DecidableEq, Repr

/-- Leftmost search, JS `String.prototype.match` with a non-global regex. -/
def rxSearch (ci : Bool) (r : Rx) (s : Str) : Option RxMatch :=
  (List.range (s.length + 1)).findSome? fun i =>
    match mrun ci (engineFuel s) r (prevAt s i) (s.drop i) [] with
    | [] => none
    | st :: _ => some ⟨i, (s.drop i).take ((s.length - i) - st.2.1.length), st.2.2⟩

/-- JS `RegExp.prototype.test`. -/
def rxTest (ci : Bool) (r : Rx) (s : Str) : Bool :=
  (rxSearch ci r s).isSome

/-- The first capture group of a match, when the match succeeds and the
group participated. -/
def rxCap1 (ci : Bool) (r : Rx) (s : Str) : Option Str :=
  match rxSearch ci r s with
  | none => none
  | some m => capGet m.caps 1

/-- JS global `String.prototype.replace` with a constant replacement.  After
each (always nonempty, for the patterns used here) match the scan resumes
after the matched text; an empty match ends the scan defensively. -/
def rxReplaceAll (ci : Bool) (r : Rx) (repl : Str) : Nat → Str → Str
  | 0, s => s
  | fuel + 1, s =>
    match rxSearch ci r s with
    | none => s
    | some m =>
      if m.matched = [] then s
      else
        s.take m.start ++ repl ++
          rxReplaceAll ci r repl fuel (s.drop (m.start + m.matched.length))

/-- Global replace entry point. -/
def rxGSub (ci : Bool) (r : Rx) (repl : Str) (s : Str) : Str :=
  rxReplaceAll ci r repl (s.length + 1) s

/-- JS non-global `String.prototype.replace`: replace the leftmost match
only. -/
def rxSub1 (ci : Bool) (r : Rx) (repl : Str) (s : Str) : Str :=
  match rxSearch ci r s with
  | none => s
  | some m => s.take m.start ++ repl ++ s.drop (m.start + m.matched.length)

/-- JS non-global replace of a `^`-anchored pattern: try the match at the
start of the string only. -/
def rxSubStart (ci : Bool) (r : Rx) (repl : Str) (s : Str) : Str :=
  match mrun ci (engineFuel s) r none s [] with
  | [] => s
  | st :: _ => repl ++ s.drop (s.length - st.2.1.length)

/-! #### Builders for transcribing regex literals -/

/-- Sequence a list of regexes. -/
def rseq (l : List Rx) : Rx :=
  match l with
  | [] => .eps
  | [r] => r
  | r :: rs => .seq r (rseq rs)

/-- Ordered alternation of a list of regexes. -/
def ralt (l : List Rx) : Rx :=
  match l with
  | [] => .eps
  | [r] => r
  | r :: rs => .alt r (ralt rs)

/-- Literal string. -/
def rstr (s : String) : Rx := rseq (s.data.map Rx.lit)

/-- Positive character class. -/
def rcls (items : List CItem) : Rx := .cls true items

/-- Negated character class. -/
def rncls (items : List CItem) : Rx := .cls false items

/-- Greedy `*`. -/
def rstar (r : Rx) : Rx := .rep 0 none false r

/-- Greedy `+`. -/
def rplus (r : Rx) : Rx := .rep 1 none false r

/-- Lazy `+?`. -/
def rplusL (r : Rx) : Rx := .rep 1 none true r

/-- Greedy `?`. -/
def ropt (r : Rx) : Rx := .rep 0 (some 1) false r

/-- Bounded repetition `{lo,hi}`. -/
def rbnd (lo hi : Nat) (r : Rx) : Rx := .rep lo (some hi) false r

/-- Exact repetition `{n}`. -/
def rexact (n : Nat) (r : Rx) : Rx := .rep n (some n) false r

/-- At-least repetition `{n,}`. -/
def ratleast (n : Nat) (r : Rx) : Rx := .rep n none false r

/-- The class `[\d,]`. -/
def clsDigitComma : List CItem := [.digit, .ch ',']

/-- The class `\s` as a one-element class. -/
def rws : Rx := rcls [.space]

/-- The class `\d` as a one-element class. -/
def rdig : Rx := rcls [.digit]

/-- The class `\w` as a one-element class. -/
def rwrd : Rx := rcls [.word]

/-! ### `lib/utils/html.ts` — text normalizer

`htmlToText` wraps the external `html-to-text` library and is therefore a
parameter of the embedding (`JsEnv.htmlToText` below). -/

/-- The pattern `/\r\n/g`. -/
def crlfRx : Rx := rstr "\x0d\n"

/-- The pattern `/\n{3,}/g`. -/
def manyNlRx : Rx := ratleast 3 (.lit '\n')

/-- The pattern `/[ \t]+/g`. -/
def spaceTabRx : Rx := rplus (rcls [.ch ' ', .ch '\t'])

/-- `cleanText` from `lib/utils/html.ts`: normalize line endings, squeeze
newline runs of three or more to two, squeeze spaces/tabs, trim. -/
def cleanText (text : Str) : Str :=
  trimStr (rxGSub false spaceTabRx (str " ")
    (rxGSub false manyNlRx (str "\n\n")
      (rxGSub false crlfRx (str "\n") text)))

/-- The HTML-detection pattern `/<[^>]+>/`. -/
def htmlTagRx : Rx := rseq [.lit '<', rplus (rncls [.ch '>']), .lit '>']

/-- A calendar date (the fields of a JS `Date` the pipeline inspects). -/
structure SDate where
  year : Int
  month : Int
  day : Int
deriving DecidableEq, Repr

/-- External collaborators of the pipeline: the `html-to-text` converter and
the native JS `Date` string parser (both third-party/runtime behaviour, so
parameters of the embedding), plus the ambient clock (`Date.now()` expressed
in days since the epoch, and the reference year used by the date-fns
two-digit-year parser). -/
structure JsEnv where
  htmlToText : Str → Str
  nativeDate : Str → Option SDate
  jsDateStr : Str → SDate
  nowDays : JQ
  refYear : Int

/-- `extractEmailText` from `lib/utils/html.ts`. -/
def extractEmailText (env : JsEnv) (body : Str) : Str :=
  if rxTest false htmlTagRx body then cleanText (env.htmlToText body)
  else cleanText body

/-! ### `lib/utils/currency.ts` — amount extraction -/

/-- The character class of `/[₹$€£¥Rs\.INR]/gi` (note: it contains the
individual characters, including the dot). -/
def currencyJunkRx : Rx :=
  rcls [.ch '₹', .ch '$', .ch '€', .ch '£', .ch '¥', .ch 'R', .ch 's',
        .ch '.', .ch 'I', .ch 'N', .ch 'R']

/-- The anchored pattern `/^(rs|inr)/i`. -/
def rsInrRx : Rx := .grp 1 (ralt [rstr "rs", rstr "inr"])

/-- The cleaning pipeline of `parseAmount`: strip currency symbols, commas
and whitespace, trim, drop a leading `rs`/`inr`, trim. -/
def parseAmountClean (amountStr : Str) : Str :=
  trimStr (rxSubStart true rsInrRx []
    (trimStr (rxGSub false (rcls [.space]) []
      (rxGSub false (.lit ',') []
        (rxGSub true currencyJunkRx [] amountStr)))))

/-- `parseAmount` from `lib/utils/currency.ts`: clean the captured text,
parse as a float and round to paise.  `none` models `null`. -/
def parseAmountE (amountStr : Str) : Option ℤ :=
  if amountStr = [] then none
  else
    match jsParseFloat (parseAmountClean amountStr) with
    | none => none
    | some q => some (jsRound (jmul q (jq 100)))

/-- A successful `extractAmount` result: paise value and the raw matched
text. -/
structure AmountRaw where
  amount : ℤ
  raw : Str
deriving DecidableEq, Repr

/-- The numeric core `[\d,]+\.?\d*` of the first three amount patterns. -/
def amtNumRx : Rx := rseq [rplus (rcls clsDigitComma), ropt (.lit '.'), rstar rdig]

/-- The amount patterns of `extractAmount`, in source order:
`/Rs\.?\s*([\d,]+\.?\d*)/i`, `/INR\s*([\d,]+\.?\d*)/i`,
`/₹\s*([\d,]+\.?\d*)/` and `/([\d,]+\.\d{2})\b/`; paired with their
case-insensitivity flags. -/
def amountPatterns : List (Bool × Rx) :=
  [ (true, rseq [rstr "Rs", ropt (.lit '.'), rstar rws, .grp 1 amtNumRx]),
    (true, rseq [rstr "INR", rstar rws, .grp 1 amtNumRx]),
    (false, rseq [.lit '₹', rstar rws, .grp 1 amtNumRx]),
    (false, rseq [.grp 1 (rseq [rplus (rcls clsDigitComma), .lit '.', rexact 2 rdig]), .wb]) ]

/-- One iteration of the `extractAmount` loop: if the pattern matches and
the captured amount parses to a positive value, produce the result. -/
def amtTry (text : Str) (p : Bool × Rx) : Option AmountRaw :=
  match rxSearch p.1 p.2 text with
  | none => none
  | some m =>
    match capGet m.caps 1 with
    | none => none
    | some cap =>
      match parseAmountE cap with
      | none => none
      | some a => if 0 < a then some ⟨a, m.matched⟩ else none

/-- `extractAmount` from `lib/utils/currency.ts`: first satisfying pattern
wins; non-numeric or non-positive candidates are rejected and the scan moves
to the next pattern. -/
def extractAmountE (text : Str) : Option AmountRaw :=
  amountPatterns.findSome? (amtTry text)

/-! ### `lib/utils/date.ts` — date extraction

`date-fns`'s `parse`/`isValid` are third-party code; they are modelled here
for exactly the format tokens the source's `DATE_FORMATS` list uses
(numeric tokens match one up to their width of digits, `MMM` matches the
English three-letter month abbreviations case-insensitively, a parse is
valid only when the whole string is consumed, the month is 1–12 and the day
fits the month, and `yy` values are mapped into the century window around
the reference year). -/

/-- Format tokens appearing in `DATE_FORMATS`. -/
inductive FTok where
  | dd : FTok
  | mm2 : FTok
  | yyyy4 : FTok
  | yy2 : FTok
  | mmm : FTok
  | sep : Char → FTok
deriving DecidableEq, Repr

/-- The source's `DATE_FORMATS` list, in order: `dd-MMM-yyyy`, `dd-MMM-yy`,
`dd/MM/yyyy`, `dd-MM-yyyy`, `dd/MM/yy`, `dd-MM-yy`, `yyyy-MM-dd`,
`MMM dd, yyyy`, `dd MMM yyyy`, `dd MMM yy`. -/
def DATE_FORMATS : List (List FTok) :=
  [ [.dd, .sep '-', .mmm, .sep '-', .yyyy4],
    [.dd, .sep '-', .mmm, .sep '-', .yy2],
    [.dd, .sep '/', .mm2, .sep '/', .yyyy4],
    [.dd, .sep '-', .mm2, .sep '-', .yyyy4],
    [.dd, .sep '/', .mm2, .sep '/', .yy2],
    [.dd, .sep '-', .mm2, .sep '-', .yy2],
    [.yyyy4, .sep '-', .mm2, .sep '-', .dd],
    [.mmm, .sep ' ', .dd, .sep ',', .sep ' ', .yyyy4],
    [.dd, .sep ' ', .mmm, .sep ' ', .yyyy4],
    [.dd, .sep ' ', .mmm, .sep ' ', .yy2] ]

/-- English month abbreviations recognized by the `MMM` token. -/
def monthAbbrevs : List (Nat × String) :=
  [(1, "Jan"), (2, "Feb"), (3, "Mar"), (4, "Apr"), (5, "May"), (6, "Jun"),
   (7, "Jul"), (8, "Aug"), (9, "Sep"), (10, "Oct"), (11, "Nov"), (12, "Dec")]

/-- date-fns's `normalizeTwoDigitYear` relative to a (common-era, post-50)
reference year: the result lands within 50 years around the reference. -/
def normTwoDigitYear (refYear : Int) (v : Int) : Int :=
  let rangeEnd := refYear + 50
  let rangeEndCentury := (rangeEnd.fdiv 100) * 100
  v + rangeEndCentury - (if rangeEnd.emod 100 ≤ v then 100 else 0)

/-- Accumulator of parsed date fields. -/
structure DfAcc where
  day : Option Int
  month : Option Int
  year : Option Int
deriving DecidableEq, Repr

/-- Consume one format token from the input. -/
def dfStep (refYear : Int) (acc : DfAcc) (t : FTok) (s : Str) :
    Option (DfAcc × Str) :=
  match t with
  | .sep c =>
    match s with
    | a :: r => if a = c then some (acc, r) else none
    | [] => none
  | .dd =>
    let ds := (s.takeWhile Char.isDigit).take 2
    if ds = [] then none
    else
      let v : Int := digitsVal ds
      if 1 ≤ v ∧ v ≤ 31 then some ({ acc with day := some v }, s.drop ds.length)
      else none
  | .mm2 =>
    let ds := (s.takeWhile Char.isDigit).take 2
    if ds = [] then none
    else
      let v : Int := digitsVal ds
      if 1 ≤ v ∧ v ≤ 12 then some ({ acc with month := some v }, s.drop ds.length)
      else none
  | .yyyy4 =>
    let ds := (s.takeWhile Char.isDigit).take 4
    if ds = [] then none
    else
      let v : Int := digitsVal ds
      if 1 ≤ v then some ({ acc with year := some v }, s.drop ds.length)
      else none
  | .yy2 =>
    let ds := (s.takeWhile Char.isDigit).take 2
    if ds = [] then none
    else
      let v : Int := digitsVal ds
      some ({ acc with year := some (normTwoDigitYear refYear v) }, s.drop ds.length)
  | .mmm =>
    (monthAbbrevs.findSome? fun mi =>
      if (mi.2.data.map lowerC).isPrefixOf (toLowerStr s) then
        some ({ acc with month := some (mi.1 : Int) }, s.drop mi.2.data.length)
      else none)

/-- Is a year a Gregorian leap year? -/
def isLeap (y : Int) : Bool :=
  y.emod 4 = 0 && (y.emod 100 ≠ 0 || y.emod 400 = 0)

/-- Days in a month of a year. -/
def daysInMonth (y m : Int) : Int :=
  if m = 2 then (if isLeap y then 29 else 28)
  else if m = 4 ∨ m = 6 ∨ m = 9 ∨ m = 11 then 30
  else 31

/-- Run a format's token list over the input. -/
def dfRun (refYear : Int) : List FTok → DfAcc → Str → Option (DfAcc × Str)
  | [], acc, s => some (acc, s)
  | t :: ts, acc, s =>
    match dfStep refYear acc t s with
    | none => none
    | some (acc2, s2) => dfRun refYear ts acc2 s2

/-- Model of `parse(cleaned, fmt, new Date())` followed by `isValid`: all
input consumed, all three fields present, and the day fits the parsed
month/year. -/
def dfParse (refYear : Int) (fmt : List FTok) (s : Str) : Option SDate :=
  match dfRun refYear fmt ⟨none, none, none⟩ s with
  | some (⟨some d, some m, some y⟩, []) =>
    if 1 ≤ d ∧ d ≤ daysInMonth y m then some ⟨y, m, d⟩ else none
  | _ => none

/-- The first format of `DATE_FORMATS` that parses the input. -/
def dfMatchFormats (refYear : Int) (s : Str) : Option SDate :=
  DATE_FORMATS.findSome? fun fmt => dfParse refYear fmt s

/-- The two-digit-year repair applied by `parseDate` after a format matches:
years below 100 get `+2000`, years 1900–1999 get `+100`, remaining years
below 1900 get `+2000`. -/
def fixYear (y : Int) : Int :=
  if y < 100 then y + 2000
  else if 1900 ≤ y ∧ y < 2000 then y + 100
  else if y < 1900 then y + 2000
  else y

/-- `setFullYear` of the repaired year. -/
def applyYearFix (d : SDate) : SDate := { d with year := fixYear d.year }

/-- `parseDate` from `lib/utils/date.ts`: trim, try each format in order
applying the year repair on the first valid parse, else fall back to native
`Date` parsing. -/
def parseDateE (env : JsEnv) (dateStr : Str) : Option SDate :=
  if dateStr = [] then none
  else
    match dfMatchFormats env.refYear (trimStr dateStr) with
    | some d => some (applyYearFix d)
    | none => env.nativeDate (trimStr dateStr)

/-- The two-character class accepting a dash or a forward slash. -/
def dashSlashRx : Rx := rcls [.ch '-', .ch '/']

/-- The date patterns of `extractDate`, in source order, with their
case-insensitivity flags (writing `D` for the dash-or-slash class):
`(\d{1,2} D \w{3} D \d{2,4})` case-insensitive,
`(\d{1,2} D \d{1,2} D \d{2,4})`, `(\d{4} D \d{1,2} D \d{1,2})`,
`(\w{3}\s+\d{1,2},?\s+\d{4})` case-insensitive,
`(\d{1,2}\s+\w{3}\s+\d{2,4})` case-insensitive. -/
def datePatterns : List (Bool × Rx) :=
  [ (true, .grp 1 (rseq [rbnd 1 2 rdig, dashSlashRx, rexact 3 rwrd, dashSlashRx, rbnd 2 4 rdig])),
    (false, .grp 1 (rseq [rbnd 1 2 rdig, dashSlashRx, rbnd 1 2 rdig, dashSlashRx, rbnd 2 4 rdig])),
    (false, .grp 1 (rseq [rexact 4 rdig, dashSlashRx, rbnd 1 2 rdig, dashSlashRx, rbnd 1 2 rdig])),
    (true, .grp 1 (rseq [rexact 3 rwrd, rplus rws, rbnd 1 2 rdig, ropt (.lit ','), rplus rws, rexact 4 rdig])),
    (true, .grp 1 (rseq [rbnd 1 2 rdig, rplus rws, rexact 3 rwrd, rplus rws, rbnd 2 4 rdig])) ]

/-- `extractDate` from `lib/utils/date.ts`: first pattern whose capture
parses to a date wins. -/
def extractDateE (env : JsEnv) (text : Str) : Option SDate :=
  datePatterns.findSome? fun p =>
    match rxSearch p.1 p.2 text with
    | none => none
    | some m =>
      match capGet m.caps 1 with
      | none => none
      | some cap => parseDateE env cap

/-- Days since the civil epoch 1970-01-01 of a calendar date (the value of
`date.getTime()` divided by 86 400 000 for a midnight date). -/
def civilDays (d : SDate) : Int :=
  let y := if d.month ≤ 2 then d.year - 1 else d.year
  let era := (if 0 ≤ y then y else y - 399).fdiv 400
  let yoe := y - era * 400
  let mp := (d.month + 9).emod 12
  let doy := (153 * mp + 2).fdiv 5 + d.day - 1
  let doe := yoe * 365 + yoe.fdiv 4 - yoe.fdiv 100 + doy
  era * 146097 + doe - 719468

/-! ### `types/index.ts` — the data model used by the pipeline -/

/-- `TransactionType`. -/
inductive TType where
  | debit : TType
  | credit : TType
deriving DecidableEq, Repr

/-- The `Bank` enum. -/
inductive Bank where
  | hdfc : Bank
  | sib : Bank
  | icici : Bank
  | axis : Bank
  | kotak : Bank
  | yes : Bank
  | unknown : Bank
deriving DecidableEq, Repr

/-- `ParsedTransaction`. -/
structure ParsedTransaction where
  amount : ℤ
  type : TType
  merchant : Str
  date : SDate
  reference : Option Str
  bank : Bank
  confidence : JQ
deriving DecidableEq, Repr

/-- `ParserResult` (the optional `usedLLM` flag defaults to the falsy
`false`). -/
structure ParserResult where
  success : Bool
  transaction : Option ParsedTransaction
  error : Option Str
  usedLLM : Bool
deriving DecidableEq, Repr

/-- A failure `ParserResult` as the parsers build it. -/
def failP (e : String) : ParserResult := ⟨false, none, some (str e), false⟩

/-! ### `lib/parsers/hdfc.ts` -/

/-- The optional two-digit decimal tail `(?:\.\d{2})?` of the HDFC amount
capture, appended to the digits/commas run when immediately present. -/
def amtDecTail (run rest : Str) : Str :=
  match rest with
  | '.' :: d1 :: d2 :: _ =>
    if d1.isDigit && d2.isDigit then run ++ ['.', d1, d2] else run
  | _ => run

/-- The capture body `\s*([\d,]+(?:\.\d{2})?)` of the HDFC amount pattern:
skip whitespace, take a maximal non-empty run of digits/commas, then the
optional decimal tail. -/
def hdfcAmtBody (u : Str) : Option Str :=
  let u2 := u.dropWhile isJsSpace
  let run := u2.takeWhile fun c => c.isDigit || c = ','
  if run = [] then none
  else some (amtDecTail run (u2.drop run.length))

/-- The HDFC amount pattern `(?:Rs\.?|INR)\s*([\d,]+(?:\.\d{2})?)` with flag
`i`, anchored at the head of `s` (returning group 1): the `Rs` branch is
tried first, preferring to consume an optional dot. -/
def hdfcAmtHere (s : Str) : Option Str :=
  match s with
  | a :: b :: t =>
    if litEq true a 'R' && litEq true b 's' then
      match t with
      | '.' :: t2 => (hdfcAmtBody t2).orElse fun _ => hdfcAmtBody t
      | _ => hdfcAmtBody t
    else
      match t with
      | c :: t2 =>
        if litEq true a 'I' && litEq true b 'N' && litEq true c 'R' then hdfcAmtBody t2
        else none
      | [] => none
  | _ => none

/-- The leftmost match of the HDFC amount pattern over the whole text
(`text.match(...)`), returning group 1. -/
def hdfcAmountCapture (text : Str) : Option Str :=
  (List.range (text.length + 1)).findSome? fun i => hdfcAmtHere (text.drop i)

/-- The bank-specific amount attempt of `parseHDFCEmail`: capture, strip
commas, parse, round to paise. -/
def hdfcAmount1 (text : Str) : Option ℤ :=
  match hdfcAmountCapture text with
  | some cap =>
    (jsParseFloat (rxGSub false (.lit ',') [] cap)).map fun q =>
      jsRound (jmul q (jq 100))
  | none => none

/-- The amount of `parseHDFCEmail` after the generic-extractor fallback
(`if (!amount) { ... extractAmount ... }`). -/
def hdfcAmount2 (text : Str) : Option ℤ :=
  if falsyZ (hdfcAmount1 text) then
    match extractAmountE text with
    | some r => some r.amount
    | none => hdfcAmount1 text
  else hdfcAmount1 text

/-- The UPI-address class `[a-zA-Z0-9._-]`. -/
def upiAddrCls : List CItem :=
  [.range 'a' 'z', .range 'A' 'Z', .range '0' '9', .ch '.', .ch '_', .ch '-']

/-- HDFC merchant pattern 1:
`to\s+([a-zA-Z0-9._-]+@[a-zA-Z0-9._-]+)\s+([A-Z][A-Za-z0-9\s&.,()-]+?)\s+on\s+\d`
with flag `i`. -/
def hdfcUpiToRx : Rx :=
  rseq [rstr "to", rplus rws,
        .grp 1 (rseq [rplus (rcls upiAddrCls), .lit '@', rplus (rcls upiAddrCls)]),
        rplus rws,
        .grp 2 (rseq [rcls [.range 'A' 'Z'],
          rplusL (rcls [.range 'A' 'Z', .range 'a' 'z', .range '0' '9', .space,
                        .ch '&', .ch '.', .ch ',', .ch '(', .ch ')', .ch '-'])]),
        rplus rws, rstr "on", rplus rws, rdig]

/-- HDFC merchant pattern 2:
`VPA\s+([a-zA-Z0-9._-]+@[a-zA-Z0-9._-]+)\s*\(([^)]+)\)` with flag `i`. -/
def hdfcVpaRx : Rx :=
  rseq [rstr "VPA", rplus rws,
        .grp 1 (rseq [rplus (rcls upiAddrCls), .lit '@', rplus (rcls upiAddrCls)]),
        rstar rws, .lit '(', .grp 2 (rplus (rncls [.ch ')'])), .lit ')']

/-- The class `[:\s]`. -/
def colonWsCls : List CItem := [.ch ':', .space]

/-- HDFC merchant pattern 3: `Info[:\s]+UPI\x2f([^\x2f]+)\x2f([^\n\r]+)`
with flag `i` (writing `\x2f` for the forward slash). -/
def hdfcInfoRx : Rx :=
  rseq [rstr "Info", rplus (rcls colonWsCls), rstr "UPI/",
        .grp 1 (rplus (rncls [.ch '/'])), .lit '/',
        .grp 2 (rplus (rncls [.ch '\n', .ch '\x0d']))]

/-- HDFC merchant pattern 4:
`(?:transferred|sent|paid)\s+(?:to|from)\s+([^\n\r.]+)` with flag `i`. -/
def hdfcTransferRx : Rx :=
  rseq [ralt [rstr "transferred", rstr "sent", rstr "paid"], rplus rws,
        ralt [rstr "to", rstr "from"], rplus rws,
        .grp 1 (rplus (rncls [.ch '\n', .ch '\x0d', .ch '.']))]

/-- HDFC pattern 5:
`UPI\s+(?:transaction\s+)?reference\s+(?:number\s+)?(?:is\s+)?(\d+)` with
flag `i`. -/
def hdfcUpiRefRx : Rx :=
  rseq [rstr "UPI", rplus rws, ropt (rseq [rstr "transaction", rplus rws]),
        rstr "reference", rplus rws, ropt (rseq [rstr "number", rplus rws]),
        ropt (rseq [rstr "is", rplus rws]), .grp 1 (rplus rdig)]

/-- The class `[A-Z0-9]`. -/
def upAlnumCls : List CItem := [.range 'A' 'Z', .range '0' '9']

/-- HDFC pattern 6: `(NEFT|IMPS)[:\s]*([A-Z0-9]+)` with flag `i`. -/
def hdfcNeftRx : Rx :=
  rseq [.grp 1 (ralt [rstr "NEFT", rstr "IMPS"]), rstar (rcls colonWsCls),
        .grp 2 (rplus (rcls upAlnumCls))]

/-- The anchored honorific pattern `^(mr|mrs|ms|dr)\.?\s*` with flag `i`. -/
def titleRx : Rx :=
  rseq [.grp 1 (ralt [rstr "mr", rstr "mrs", rstr "ms", rstr "dr"]),
        ropt (.lit '.'), rstar rws]

/-- The pattern `[*]+`. -/
def asteriskRunRx : Rx := rplus (rcls [.ch '*'])

/-- The pattern `\s+`. -/
def wsRunRx : Rx := rplus rws

/-- `cleanMerchantName` from `lib/parsers/hdfc.ts`. -/
def cleanMerchantNameHDFC (name : Str) : Str :=
  takeStr 100 (trimStr (rxSubStart true titleRx []
    (rxGSub false wsRunRx (str " ")
      (rxGSub false asteriskRunRx [] name))))

/-- `calculateConfidence` shared in shape by the HDFC and SIB parsers: base
0.5, +0.2 when the amount is positive, +0.2 when a merchant was resolved,
+0.1 when the date lies within the last 365 days, capped at 1. -/
def calcConfidenceHS (nowDays : JQ) (amount : ℤ) (merchant : Str) (date : SDate) : JQ :=
  let c1 : JQ := jqd 1 2
  let c2 := if 0 < amount then jadd c1 (jqd 1 5) else c1
  let c3 := if merchant ≠ str "Unknown" then jadd c2 (jqd 1 5) else c2
  let days := jsub nowDays (jq (civilDays date))
  let c4 := if jle (jq 0) days && jlt days (jq 365) then jadd c3 (jqd 1 10) else c3
  jmin c4 (jq 1)

/-- The merchant/reference cascade of `parseHDFCEmail` (patterns 1–6 over
the normalized text, starting from `merchant = "Unknown"`,
`reference = null`). -/
def hdfcMerchantRef (text : Str) : Str × Option Str :=
  let p1 :=
    match rxSearch true hdfcUpiToRx text with
    | some m => (trimStr ((capGet m.caps 2).getD []),
                 some (str "UPI/" ++ (capGet m.caps 1).getD []))
    | none => (str "Unknown", (none : Option Str))
  let p2 :=
    if p1.1 = str "Unknown" then
      match rxSearch true hdfcVpaRx text with
      | some m => (trimStr ((capGet m.caps 2).getD []),
                   some (str "UPI/" ++ (capGet m.caps 1).getD []))
      | none => p1
    else p1
  let p3 :=
    if p2.1 = str "Unknown" then
      match rxSearch true hdfcInfoRx text with
      | some m => (trimStr ((capGet m.caps 2).getD []),
                   some (str "UPI/" ++ (capGet m.caps 1).getD []))
      | none => p2
    else p2
  let p4 :=
    if p3.1 = str "Unknown" then
      match rxSearch true hdfcTransferRx text with
      | some m => (trimStr ((capGet m.caps 1).getD []), p3.2)
      | none => p3
    else p3
  let p5 :=
    match rxSearch true hdfcUpiRefRx text with
    | some m =>
      if falsyS p4.2 then (p4.1, some (str "UPI/" ++ (capGet m.caps 1).getD []))
      else p4
    | none => p4
  let p6 :=
    if falsyS p5.2 then
      match rxSearch true hdfcNeftRx text with
      | some m => (p5.1, some ((capGet m.caps 1).getD [] ++ str "/" ++ (capGet m.caps 2).getD []))
      | none => p5
    else p5
  p6

/-- `parseHDFCEmail` from `lib/parsers/hdfc.ts`. -/
def parseHDFCEmailE (env : JsEnv) (body _subject : Str) (emailDate : SDate) : ParserResult :=
  let text := extractEmailText env body
  let lowerText := toLowerStr text
  if includesStr lowerText (str "was declined") || includesStr lowerText (str "failed")
      || includesStr lowerText (str "unsuccessful") then
    failP "Declined/failed transaction - skipping"
  else
    let typeOpt : Option TType :=
      if includesStr lowerText (str "debited")
          || includesStr lowerText (str "has been debited") then some .debit
      else if includesStr lowerText (str "credited")
          || includesStr lowerText (str "has been credited")
          || includesStr lowerText (str "received") then some .credit
      else none
    match typeOpt with
    | none => failP "Could not determine transaction type"
    | some ty =>
      match hdfcAmount2 text with
      | none => failP "Could not extract amount"
      | some amount =>
        if amount = 0 then failP "Could not extract amount"
        else
          let date := (extractDateE env text).getD emailDate
          let mr := hdfcMerchantRef text
          let merchant := cleanMerchantNameHDFC mr.1
          ⟨true, some ⟨amount, ty, merchant, date, mr.2, .hdfc,
              calcConfidenceHS env.nowDays amount merchant date⟩, none, false⟩

/-! ### `lib/parsers/sib.ts` -/

/-- SIB merchant pattern:
`(?:to|from|at|by)\s+([A-Za-z0-9\s&.-]+?)(?:\s+on|\s+for|\s+via|\s+through|\s+ref|\n|$)`
with flag `i`. -/
def sibToFromRx : Rx :=
  rseq [ralt [rstr "to", rstr "from", rstr "at", rstr "by"], rplus rws,
        .grp 1 (rplusL (rcls [.range 'A' 'Z', .range 'a' 'z', .range '0' '9',
                              .space, .ch '&', .ch '.', .ch '-'])),
        ralt [rseq [rplus rws, rstr "on"], rseq [rplus rws, rstr "for"],
              rseq [rplus rws, rstr "via"], rseq [rplus rws, rstr "through"],
              rseq [rplus rws, rstr "ref"], .lit '\n', .eos]]

/-- SIB UPI pattern: `UPI[:\s]+([^\n\r]+)` with flag `i`. -/
def sibUpiRx : Rx :=
  rseq [rstr "UPI", rplus (rcls colonWsCls),
        .grp 1 (rplus (rncls [.ch '\n', .ch '\x0d']))]

/-- SIB reference pattern:
`(?:ref(?:erence)?|txn|transaction)[:\s#]*([A-Z0-9]+)` with flag `i`. -/
def sibRefRx : Rx :=
  rseq [ralt [rseq [rstr "ref", ropt (rstr "erence")], rstr "txn", rstr "transaction"],
        rstar (rcls [.ch ':', .space, .ch '#']), .grp 1 (rplus (rcls upAlnumCls))]

/-- SIB IMPS pattern: `(IMPS|NEFT)[:\s]*([A-Z0-9]+)?` with flag `i`. -/
def sibImpsRx : Rx :=
  rseq [.grp 1 (ralt [rstr "IMPS", rstr "NEFT"]), rstar (rcls colonWsCls),
        ropt (.grp 2 (rplus (rcls upAlnumCls)))]

/-- `cleanMerchantName` from `lib/parsers/sib.ts` (additionally strips an
account-number token). -/
def cleanMerchantNameSIB (name : Str) : Str :=
  takeStr 100 (trimStr (rxSub1 true (rseq [rstr "a/c", rstar rws, rplus rdig]) []
    (rxSubStart true titleRx []
      (rxGSub false wsRunRx (str " ")
        (rxGSub false asteriskRunRx [] name)))))

/-- The merchant/reference cascade of `parseSIBEmail`. -/
def sibMerchantRef (text : Str) : Str × Option Str :=
  let p1 :=
    match rxSearch true sibToFromRx text with
    | some m => (trimStr ((capGet m.caps 1).getD []), (none : Option Str))
    | none => (str "Unknown", (none : Option Str))
  let p2 :=
    match rxSearch true sibUpiRx text with
    | some m =>
      let raw := (capGet m.caps 1).getD []
      let parts := splitOnC '/' raw
      if 1 < parts.length then
        (trimStr (parts.getLast?.getD []),
         some (str "UPI/" ++ trimStr (parts.head?.getD [])))
      else (trimStr raw, some (str "UPI"))
    | none => p1
  let p3 :=
    match rxSearch true sibRefRx text with
    | some m => if falsyS p2.2 then (p2.1, some ((capGet m.caps 1).getD [])) else p2
    | none => p2
  let p4 :=
    match rxSearch true sibImpsRx text with
    | some m =>
      match capGet m.caps 2 with
      | some c2 =>
        if c2 = [] then (p3.1, some ((capGet m.caps 1).getD []))
        else (p3.1, some ((capGet m.caps 1).getD [] ++ str "/" ++ c2))
      | none => (p3.1, some ((capGet m.caps 1).getD []))
    | none => p3
  p4

/-- `parseSIBEmail` from `lib/parsers/sib.ts`. -/
def parseSIBEmailE (env : JsEnv) (body _subject : Str) (emailDate : SDate) : ParserResult :=
  let text := extractEmailText env body
  let lowerText := toLowerStr text
  let typeOpt : Option TType :=
    if includesStr lowerText (str "debited") || includesStr lowerText (str "debit")
        || includesStr lowerText (str "withdrawn")
        || includesStr lowerText (str "purchase") then some .debit
    else if includesStr lowerText (str "credited") || includesStr lowerText (str "credit")
        || includesStr lowerText (str "received")
        || includesStr lowerText (str "deposit") then some .credit
    else none
  match typeOpt with
  | none => failP "Could not determine transaction type"
  | some ty =>
    match extractAmountE text with
    | none => failP "Could not extract amount"
    | some amountResult =>
      let date := (extractDateE env text).getD emailDate
      let mr := sibMerchantRef text
      let merchant := cleanMerchantNameSIB mr.1
      ⟨true, some ⟨amountResult.amount, ty, merchant, date, mr.2, .sib,
          calcConfidenceHS env.nowDays amountResult.amount merchant date⟩, none, false⟩

/-! ### `lib/parsers/generic.ts` -/

/-- The debit keywords of the generic parser, in scan order. -/
def genDebitKeywords : List Str :=
  [str "debited", str "debit", str "withdrawn", str "spent", str "purchase",
   str "payment of", str "paid"]

/-- The credit keywords of the generic parser, in scan order. -/
def genCreditKeywords : List Str :=
  [str "credited", str "credit", str "received", str "deposited", str "refund"]

/-- The class of a newline or carriage return, negated in many patterns. -/
def nlCrCls : List CItem := [.ch '\n', .ch '\x0d']

/-- Generic merchant pattern 1:
`UPI[:\-\s]+(?:[^\s\x2f]+\x2f)?([^\n\r\x2f]+?)(?:\s+on|\s+ref|\n|$)` with
flag `i` (writing `\x2f` for the forward slash). -/
def genUpiRx : Rx :=
  rseq [rstr "UPI", rplus (rcls [.ch ':', .ch '-', .space]),
        ropt (rseq [rplus (rncls [.space, .ch '/']), .lit '/']),
        .grp 1 (rplusL (rncls [.ch '\n', .ch '\x0d', .ch '/'])),
        ralt [rseq [rplus rws, rstr "on"], rseq [rplus rws, rstr "ref"],
              .lit '\n', .eos]]

/-- Generic merchant pattern 2: `VPA[:\s]+([^\n\r]+)` with flag `i`. -/
def genVpaRx : Rx :=
  rseq [rstr "VPA", rplus (rcls colonWsCls), .grp 1 (rplus (rncls nlCrCls))]

/-- Generic merchant pattern 3:
`(?:at|to|from|paid to|received from)\s+([A-Za-z0-9\s&.,'-]+?)(?:\s+on|\s+via|\s+ref|\s+for|\n|$)`
with flag `i`. -/
def genAtToRx : Rx :=
  rseq [ralt [rstr "at", rstr "to", rstr "from", rstr "paid to", rstr "received from"],
        rplus rws,
        .grp 1 (rplusL (rcls [.range 'A' 'Z', .range 'a' 'z', .range '0' '9',
                              .space, .ch '&', .ch '.', .ch ',', .ch '\'', .ch '-'])),
        ralt [rseq [rplus rws, rstr "on"], rseq [rplus rws, rstr "via"],
              rseq [rplus rws, rstr "ref"], rseq [rplus rws, rstr "for"],
              .lit '\n', .eos]]

/-- Generic merchant pattern 4: `Info[:\s]+([^\n\r]+)` with flag `i`. -/
def genInfoRx : Rx :=
  rseq [rstr "Info", rplus (rcls colonWsCls), .grp 1 (rplus (rncls nlCrCls))]

/-- Generic merchant pattern 5: `merchant[:\s]+([^\n\r]+)` with flag `i`. -/
def genMerchRx : Rx :=
  rseq [rstr "merchant", rplus (rcls colonWsCls), .grp 1 (rplus (rncls nlCrCls))]

/-- Generic merchant pattern 6: `payee[:\s]+([^\n\r]+)` with flag `i`. -/
def genPayeeRx : Rx :=
  rseq [rstr "payee", rplus (rcls colonWsCls), .grp 1 (rplus (rncls nlCrCls))]

/-- The generic merchant patterns in source order (all with flag `i`). -/
def genMerchantPatterns : List Rx :=
  [genUpiRx, genVpaRx, genAtToRx, genInfoRx, genMerchRx, genPayeeRx]

/-- The generic reference patterns in source order (all with flag `i`):
`(?:ref(?:erence)?|txn|transaction|rrn)[:\s#]*([A-Z0-9]{6,})`,
`UPI[:\s]+([A-Z0-9]+)`, `(IMPS|NEFT|RTGS)[:\s]*([A-Z0-9]+)`. -/
def genRefPatterns : List Rx :=
  [ rseq [ralt [rseq [rstr "ref", ropt (rstr "erence")], rstr "txn",
                rstr "transaction", rstr "rrn"],
          rstar (rcls [.ch ':', .space, .ch '#']), .grp 1 (ratleast 6 (rcls upAlnumCls))],
    rseq [rstr "UPI", rplus (rcls colonWsCls), .grp 1 (rplus (rcls upAlnumCls))],
    rseq [.grp 1 (ralt [rstr "IMPS", rstr "NEFT", rstr "RTGS"]),
          rstar (rcls colonWsCls), .grp 2 (rplus (rcls upAlnumCls))] ]

/-- The merchant loop of the generic parser: first pattern whose non-empty
capture trims to a string of length strictly between 2 and 100 wins. -/
def genFirstMerchant (text : Str) : List Rx → Option Str
  | [] => none
  | p :: ps =>
    match rxSearch true p text with
    | some m =>
      match capGet m.caps 1 with
      | some m1 =>
        if m1 = [] then genFirstMerchant text ps
        else
          let ex := trimStr m1
          if 2 < ex.length ∧ ex.length < 100 then some ex
          else genFirstMerchant text ps
      | none => genFirstMerchant text ps
    | none => genFirstMerchant text ps

/-- The reference loop of the generic parser: first matching pattern wins;
the reference is `match[1]/match[2]` when group 2 participated and is
non-empty, else `match[1]`. -/
def genFirstRef (text : Str) : List Rx → Option Str
  | [] => none
  | p :: ps =>
    match rxSearch true p text with
    | some m =>
      match capGet m.caps 2 with
      | some c2 =>
        if c2 = [] then some ((capGet m.caps 1).getD [])
        else some ((capGet m.caps 1).getD [] ++ str "/" ++ c2)
      | none => some ((capGet m.caps 1).getD [])
    | none => genFirstRef text ps

/-- `cleanMerchantName` from `lib/parsers/generic.ts`. -/
def cleanMerchantNameGen (name : Str) : Str :=
  takeStr 100 (trimStr
    (rxGSub false (rcls [.ch '<', .ch '>']) []
      (rxGSub false (rseq [rplus (rcls [.ch '*']), rplus rdig]) []
        (rxSub1 true (rseq [rstr "a/c", rstar rws, rplus (rcls [.ch '*', .digit])]) []
          (rxSubStart true titleRx []
            (rxGSub false wsRunRx (str " ")
              (rxGSub false asteriskRunRx [] name)))))))

/-- The generic banking keywords counted by the generic confidence. -/
def genBankKeywords : List Str :=
  [str "account", str "balance", str "transaction", str "bank"]

/-- `calculateConfidence` from `lib/parsers/generic.ts`: base 0.4, +0.15 for
a positive amount, +0.2 for a resolved merchant longer than 3 characters,
+0.1 for a date within the last 365 days, +0.05 per banking keyword found in
the text, capped at 1.  The sums are computed in binary64 (as the source's
number arithmetic is), because here the rounding is observable: the nominal
0.4 + 0.15 + 0.1 + 0.05 evaluates to the binary64 value just above 0.7, so
this confidence compares strictly greater than the 0.7 literal. -/
def calcConfidenceGen (nowDays : JQ) (amount : ℤ) (merchant : Str) (date : SDate)
    (text : Str) : JQ :=
  let c1 : JQ := dlit 2 5
  let c2 := if 0 < amount then dadd c1 (dlit 3 20) else c1
  let c3 := if merchant ≠ str "Unknown" ∧ 3 < merchant.length then dadd c2 (dlit 1 5) else c2
  let days := jsub nowDays (jq (civilDays date))
  let c4 := if jle (jq 0) days && jlt days (jq 365) then dadd c3 (dlit 1 10) else c3
  let lowerText := toLowerStr text
  let kw := (genBankKeywords.filter fun k => includesStr lowerText k).length
  jmin (dadd c4 (dmul (jq kw) (dlit 1 20))) (jq 1)

/-- `parseGenericBankEmail` from `lib/parsers/generic.ts`. -/
def parseGenericBankEmailE (env : JsEnv) (body subject : Str) (emailDate : SDate)
    (bank : Bank) : ParserResult :=
  let text := extractEmailText env body
  let lowerText := toLowerStr text
  let lowerSubject := toLowerStr subject
  let typeOpt : Option TType :=
    if genDebitKeywords.any (fun k => includesStr lowerText k || includesStr lowerSubject k)
    then some .debit
    else if genCreditKeywords.any (fun k => includesStr lowerText k || includesStr lowerSubject k)
    then some .credit
    else none
  match typeOpt with
  | none => failP "Could not determine transaction type"
  | some ty =>
    match (extractAmountE text).orElse (fun _ => extractAmountE subject) with
    | none => failP "Could not extract amount"
    | some amountResult =>
      let date := (extractDateE env text).getD emailDate
      let merchant0 := (genFirstMerchant text genMerchantPatterns).getD (str "Unknown")
      let reference := genFirstRef text genRefPatterns
      let merchant := cleanMerchantNameGen merchant0
      ⟨true, some ⟨amountResult.amount, ty, merchant, date, reference, bank,
          calcConfidenceGen env.nowDays amountResult.amount merchant date text⟩,
       none, false⟩

/-! ### `lib/parsers/index.ts` — the parse orchestrator -/

/-- The input of the orchestrator. -/
structure EmailIn where
  body : Str
  subject : Str
  date : SDate
  bank : Bank
deriving DecidableEq, Repr

/-- The bank-parser dispatch (the `switch (bank)` of both orchestrator
entry points). -/
def bankParse (env : JsEnv) (e : EmailIn) : ParserResult :=
  match e.bank with
  | .hdfc => parseHDFCEmailE env e.body e.subject e.date
  | .sib => parseSIBEmailE env e.body e.subject e.date
  | b => parseGenericBankEmailE env e.body e.subject e.date b

/-- The triage condition shared by both orchestrator entry points:
`!success || confidence < 0.7 || merchant == "Unknown"`. -/
def needsLLMOf (r : ParserResult) : Bool :=
  !r.success
    || (match r.transaction with
        | some t => jlt t.confidence (jqd 7 10)
        | none => false)
    || (match r.transaction with
        | some t => decide (t.merchant = str "Unknown")
        | none => false)

/-- `parseEmailWithRegex`: the regex-only pass used for batch triage. -/
structure RegexParseOut where
  res : ParserResult
  needsLLMFallback : Bool
deriving DecidableEq, Repr

/-- `parseEmailWithRegex` from `lib/parsers/index.ts`. -/
def parseEmailWithRegexE (env : JsEnv) (e : EmailIn) : RegexParseOut :=
  let result := bankParse env e
  ⟨{ result with usedLLM := false }, needsLLMOf result⟩

/-- The decision logic of `parseTransactionEmail` after the bank parser has
produced `result`, with the LLM fallback's outcome supplied as `llmResult`
(it is consulted only when a key is configured and fallback is needed). -/
def parseTransactionEmailArb (result : ParserResult) (openaiApiKey : Option Str)
    (llmResult : ParserResult) : ParserResult :=
  if result.success && result.transaction.isSome
      && (match result.transaction with
          | some t => jle (jqd 7 10) t.confidence && decide (t.merchant ≠ str "Unknown")
          | none => false) then
    { result with usedLLM := false }
  else if jsKey openaiApiKey && needsLLMOf result then
    if llmResult.success && llmResult.transaction.isSome then
      if result.success && result.transaction.isSome
          && (match result.transaction with
              | some t => decide (t.merchant ≠ str "Unknown")
              | none => false) then
        if (match result.transaction, llmResult.transaction with
            | some t, some lt => jlt lt.confidence t.confidence
            | _, _ => false) then
          { result with usedLLM := false }
        else { llmResult with usedLLM := true }
      else { llmResult with usedLLM := true }
    else { result with usedLLM := false }
  else { result with usedLLM := false }

/-! ### `lib/parsers/llm-fallback.ts` — the LLM fallback parser

The completion API is a collaborator: each request is modelled by an
`OracleOut` value — a reply with no content, a thrown error (network
failure, malformed JSON) carrying its message, or a parsed structured
reply. -/

/-- Outcome of one oracle request. -/
inductive OracleOut (α : Type) where
  | empty : OracleOut α
  | thrown : Str → OracleOut α
  | ok : α → OracleOut α

/-- The single-email reply shape (`LLMParseResult`); absent fields are
`none`. -/
structure LLMReply where
  amount : Option JQ
  type : Option Str
  merchant : Option Str
  date : Option Str
  reference : Option Str
deriving DecidableEq, Repr

/-- Truthiness of an optional number (`0`, `NaN` and absence are falsy). -/
def falsyQ (o : Option JQ) : Bool :=
  match o with
  | none => true
  | some q => jisZero q

/-- `parseLLMFallback` from `lib/parsers/llm-fallback.ts` (single email;
the oracle request/response is the `oracle` argument). -/
def parseLLMFallbackE (env : JsEnv) (_body _subject : Str) (emailDate : SDate)
    (bank : Bank) (openaiApiKey : Option Str) (oracle : OracleOut LLMReply) :
    ParserResult :=
  if !jsKey openaiApiKey then
    ⟨false, none, some (str "OpenAI API key not configured"), false⟩
  else
    match oracle with
    | .empty => ⟨false, none, some (str "Empty LLM response"), false⟩
    | .thrown e => ⟨false, none, some e, false⟩
    | .ok parsed =>
      if falsyQ parsed.amount || falsyS parsed.type || falsyS parsed.merchant then
        ⟨false, none, some (str "LLM could not extract required fields"), false⟩
      else
        let amountInPaise := jsRound (jmul (parsed.amount.getD (jq 0)) (jq 100))
        let transactionDate :=
          match parsed.date with
          | some ds => if ds = [] then emailDate else env.jsDateStr ds
          | none => emailDate
        ⟨true, some ⟨amountInPaise,
            (if parsed.type = some (str "debit") then .debit else .credit),
            parsed.merchant.getD [], transactionDate, parsed.reference, bank,
            jqd 7 10⟩, none, false⟩

/-- `parseTransactionEmail` from `lib/parsers/index.ts`: run the bank
parser, then arbitrate with the LLM fallback (whose oracle request is the
`oracle` argument). -/
def parseTransactionEmailE (env : JsEnv) (e : EmailIn) (openaiApiKey : Option Str)
    (oracle : OracleOut LLMReply) : ParserResult :=
  parseTransactionEmailArb (bankParse env e) openaiApiKey
    (parseLLMFallbackE env e.body e.subject e.date e.bank openaiApiKey oracle)

/-- Input element of the batched fallback (`EmailToParse`). -/
structure EmailToParse where
  id : Str
  body : Str
  subject : Str
  emailDate : SDate
  bank : Bank
deriving DecidableEq, Repr

/-- One record of a batch reply (`BatchLLMParseResult`); absent fields are
`none`. -/
structure BatchLLMItem where
  id : Str
  amount : Option JQ
  type : Option Str
  merchant : Option Str
  date : Option Str
  reference : Option Str
deriving DecidableEq, Repr

/-- The failure outcome used by the batch parser. -/
def batchFailP (e : Str) : ParserResult := ⟨false, none, some e, true⟩

/-- Process one reply record of a batch: ignore ids not in the batch, emit a
failure for records missing amount/type/merchant, otherwise emit the parsed
transaction with fixed confidence 0.7. -/
def processLLMReplyItem (env : JsEnv) (batch : List EmailToParse)
    (m : RMap ParserResult) (r : BatchLLMItem) : RMap ParserResult :=
  match batch.find? (fun e => e.id = r.id) with
  | none => m
  | some email =>
    if falsyQ r.amount || falsyS r.type || falsyS r.merchant then
      mset m r.id (batchFailP (str "LLM could not extract required fields"))
    else
      let amountInPaise := jsRound (jmul (r.amount.getD (jq 0)) (jq 100))
      let transactionDate :=
        match r.date with
        | some ds => if ds = [] then email.emailDate else env.jsDateStr ds
        | none => email.emailDate
      mset m r.id ⟨true, some ⟨amountInPaise,
          (if r.type = some (str "debit") then .debit else .credit),
          r.merchant.getD [], transactionDate, r.reference, email.bank,
          jqd 7 10⟩, none, true⟩

/-- Give every batch email without an outcome the stated failure. -/
def fillBatchFailures (batch : List EmailToParse) (msg : Str)
    (m : RMap ParserResult) : RMap ParserResult :=
  batch.foldl (fun m2 em => if mhas m2 em.id then m2 else mset m2 em.id (batchFailP msg)) m

/-- Process one batch of at most 25 emails: on a structured reply, take the
records (then fail any email the reply omitted); on an empty or thrown
reply, fail the whole batch with the diagnostic message. -/
def processLLMBatch (env : JsEnv)
    (oracle : List EmailToParse → OracleOut (List BatchLLMItem))
    (batch : List EmailToParse) (acc : RMap ParserResult) : RMap ParserResult :=
  match oracle batch with
  | .ok items =>
    fillBatchFailures batch (str "Email not in LLM response")
      (items.foldl (processLLMReplyItem env batch) acc)
  | .empty => fillBatchFailures batch (str "Empty LLM response") acc
  | .thrown e => fillBatchFailures batch e acc

/-- The 25-per-request batching loop of `batchParseLLMFallback`. -/
def llmBatchLoop (env : JsEnv)
    (oracle : List EmailToParse → OracleOut (List BatchLLMItem)) :
    List EmailToParse → RMap ParserResult → RMap ParserResult
  | [], acc => acc
  | e :: es, acc =>
    llmBatchLoop env oracle (es.drop 24)
      (processLLMBatch env oracle ((e :: es).take 25) acc)
termination_by es => es.length
decreasing_by simp [List.length_drop]; omega

/-- `batchParseLLMFallback` from `lib/parsers/llm-fallback.ts`. -/
def batchParseLLMFallbackE (env : JsEnv) (emails : List EmailToParse)
    (openaiApiKey : Option Str)
    (oracle : List EmailToParse → OracleOut (List BatchLLMItem)) :
    RMap ParserResult :=
  if !jsKey openaiApiKey || emails.length = 0 then
    emails.foldl
      (fun m em => mset m em.id (batchFailP (str "OpenAI API key not configured")))
      mempty
  else llmBatchLoop env oracle emails mempty

/-! ### `lib/llm/categorize.ts` — the categorization engine -/

/-- A category row (the two fields the engine reads). -/
structure CategoryE where
  id : Str
  name : Str
deriving DecidableEq, Repr

/-- Input element of `batchCategorize`. -/
structure CatTxIn where
  id : Str
  merchant : Str
  amount : ℤ
  type : TType
deriving DecidableEq, Repr

/-- One record of a categorization batch reply; absent fields are `none`. -/
structure CatReplyItem where
  id : Str
  categoryId : Option Str
  cleanMerchant : Option Str
  subcategory : Option Str
  confidence : Option JQ
deriving DecidableEq, Repr

/-- `CategorizationResult`. -/
structure CatResult where
  categoryId : Option Str
  cleanMerchant : Str
  subcategory : Option Str
  confidence : JQ
deriving DecidableEq, Repr

/-- The catalog's "Other" category, if any. -/
def findOther (cats : List CategoryE) : Option CategoryE :=
  cats.find? fun c => c.name = str "Other"

/-- `otherCategory?.id || null`. -/
def otherIdOrNull (cats : List CategoryE) : Option Str :=
  match findOther cats with
  | some c => if c.id = [] then none else some c.id
  | none => none

/-- The safe default categorization (no key, omitted id, failed batch):
"Other" (or null), unchanged merchant, no subcategory, confidence 0.3. -/
def safeDefaultCat (cats : List CategoryE) (merchant : Str) : CatResult :=
  ⟨otherIdOrNull cats, merchant, none, jqd 3 10⟩

/-- Does a reply record's category id occur in the live catalog? -/
def validCat (cats : List CategoryE) (r : CatReplyItem) : Bool :=
  match r.categoryId with
  | some cid => cats.any fun c => c.id = cid
  | none => false

/-- The post-validated result built from one reply record: invalid ids are
coerced to "Other" with confidence 0.5; valid ids keep the reply's
confidence (0.7 when absent or zero). -/
def catReplyValue (cats : List CategoryE) (batch : List CatTxIn)
    (r : CatReplyItem) : CatResult :=
  ⟨if validCat cats r then r.categoryId else otherIdOrNull cats,
   jsOrS r.cleanMerchant
     (jsOrS ((batch.find? (fun t => t.id = r.id)).map (·.merchant)) (str "Unknown")),
   jsOrNullS r.subcategory,
   if validCat cats r then jsOrQ r.confidence (jqd 7 10) else jqd 1 2⟩

/-- Process one record of a categorization reply. -/
def processCatReplyItem (cats : List CategoryE) (batch : List CatTxIn)
    (m : RMap CatResult) (r : CatReplyItem) : RMap CatResult :=
  mset m r.id (catReplyValue cats batch r)

/-- Give every batch transaction without an outcome the safe default. -/
def fillCatDefaults (cats : List CategoryE) (batch : List CatTxIn)
    (m : RMap CatResult) : RMap CatResult :=
  batch.foldl
    (fun m2 tx => if mhas m2 tx.id then m2 else mset m2 tx.id (safeDefaultCat cats tx.merchant))
    m

/-- Process one batch of at most 100 transactions: on a structured reply,
post-validate each record then fill omissions; on an empty or thrown reply,
fall back to the safe default for the whole batch. -/
def processCatBatch (cats : List CategoryE)
    (oracle : List CatTxIn → OracleOut (List CatReplyItem))
    (batch : List CatTxIn) (acc : RMap CatResult) : RMap CatResult :=
  match oracle batch with
  | .ok reply => fillCatDefaults cats batch (reply.foldl (processCatReplyItem cats batch) acc)
  | .empty => fillCatDefaults cats batch acc
  | .thrown _ => fillCatDefaults cats batch acc

/-- The 100-per-request batching loop of `batchCategorize`. -/
def catBatchLoop (cats : List CategoryE)
    (oracle : List CatTxIn → OracleOut (List CatReplyItem)) :
    List CatTxIn → RMap CatResult → RMap CatResult
  | [], acc => acc
  | t :: ts, acc =>
    catBatchLoop cats oracle (ts.drop 99)
      (processCatBatch cats oracle ((t :: ts).take 100) acc)
termination_by ts => ts.length
decreasing_by simp [List.length_drop]; omega

/-- `batchCategorize` from `lib/llm/categorize.ts` (the category catalog,
read from the store, is the `cats` argument). -/
def batchCategorizeE (txs : List CatTxIn) (openaiApiKey : Option Str)
    (cats : List CategoryE)
    (oracle : List CatTxIn → OracleOut (List CatReplyItem)) : RMap CatResult :=
  if !jsKey openaiApiKey || txs.length = 0 then
    txs.foldl (fun m tx => mset m tx.id (safeDefaultCat cats tx.merchant)) mempty
  else catBatchLoop cats oracle txs mempty

/-! ### `app/api/sync/route.ts` — the sync merge controller

The store is a list of persisted transaction rows; `uuidv4()` is an
arbitrary stream of fresh ids (`uuids`); the mail fetch has already
produced `emails`.  The regex parser is a parameter `rp` — instantiated
with `parseEmailWithRegexE` by `syncRun` — which lets the development state
that message-identity duplicates are settled without consulting the parser
at all. -/

/-- A fetched email (`EmailData`, the fields the sync route reads). -/
structure FetchedEmail where
  messageId : Str
  subject : Str
  body : Str
  date : SDate
  bank : Bank
deriving DecidableEq, Repr

/-- A persisted transaction row (the columns the sync route writes and its
duplicate checks read). -/
structure TxRow where
  id : Str
  userId : Str
  amount : ℤ
  currency : Str
  type : TType
  rawMerchant : Str
  cleanMerchant : Str
  categoryId : Option Str
  subcategory : Option Str
  transactionDate : SDate
  sourceBank : Bank
  sourceRef : Option Str
  emailMessageId : Option Str
  rawEmailSubject : Option Str
  confidence : JQ
  isVerified : Bool
deriving DecidableEq, Repr

/-- `isEmailProcessed` from `lib/gmail/fetch.ts`: does a row with this
`(userId, emailMessageId)` pair exist? -/
def isEmailProcessedE (db : List TxRow) (userId msgId : Str) : Bool :=
  db.any fun r => r.userId = userId && r.emailMessageId = some msgId

/-- An accepted parse attached to its email (`ParsedEmail`). -/
structure ParsedEmailRec where
  id : Str
  emailMessageId : Str
  emailSubject : Str
  parsed : ParsedTransaction
deriving DecidableEq, Repr

/-- An email waiting for LLM fallback, with its partial regex result. -/
structure NeedItem where
  id : Str
  email : FetchedEmail
  regexResult : Option ParsedTransaction
deriving DecidableEq, Repr

/-- State of the pass-1 loop. -/
structure PhaseAState where
  duplicates : Nat
  regexParsed : Nat
  parsedEmails : List ParsedEmailRec
  needing : List NeedItem
  ctr : Nat
deriving DecidableEq, Repr

/-- One iteration of pass 1: skip message-identity duplicates without
parsing; accept confident parses; queue the rest for fallback. -/
def phaseAStep (db0 : List TxRow) (userId : Str)
    (rp : FetchedEmail → RegexParseOut) (uuids : Nat → Str)
    (st : PhaseAState) (e : FetchedEmail) : PhaseAState :=
  if isEmailProcessedE db0 userId e.messageId then
    { st with duplicates := st.duplicates + 1 }
  else
    let r := rp e
    match r.res.transaction with
    | some t =>
      if r.res.success && !r.needsLLMFallback then
        { st with
          regexParsed := st.regexParsed + 1
          parsedEmails := st.parsedEmails ++ [⟨uuids st.ctr, e.messageId, e.subject, t⟩]
          ctr := st.ctr + 1 }
      else
        { st with needing := st.needing ++ [⟨uuids st.ctr, e, some t⟩], ctr := st.ctr + 1 }
    | none =>
      { st with needing := st.needing ++ [⟨uuids st.ctr, e, none⟩], ctr := st.ctr + 1 }

/-- Pass 1 over all fetched emails. -/
def phaseA (db0 : List TxRow) (userId : Str) (rp : FetchedEmail → RegexParseOut)
    (uuids : Nat → Str) (emails : List FetchedEmail) : PhaseAState :=
  emails.foldl (phaseAStep db0 userId rp uuids) ⟨0, 0, [], [], 0⟩

/-- State of the pass-2 loop. -/
structure PhaseBState where
  regexParsed : Nat
  llmParsed : Nat
  errors : Nat
  parsedEmails : List ParsedEmailRec
deriving DecidableEq, Repr

/-- The shared fallback of pass 2: keep the partial regex result if one
exists, otherwise count an error. -/
def phaseBRegexFallback (st : PhaseBState) (item : NeedItem) : PhaseBState :=
  match item.regexResult with
  | some t =>
    { st with
      regexParsed := st.regexParsed + 1
      parsedEmails := st.parsedEmails ++ [⟨item.id, item.email.messageId, item.email.subject, t⟩] }
  | none => { st with errors := st.errors + 1 }

/-- One iteration of pass 2 with LLM results available. -/
def phaseBStep (llmResults : RMap ParserResult) (st : PhaseBState)
    (item : NeedItem) : PhaseBState :=
  match mget llmResults item.id with
  | some lr =>
    match lr.transaction with
    | some t =>
      if lr.success then
        { st with
          llmParsed := st.llmParsed + 1
          parsedEmails := st.parsedEmails ++ [⟨item.id, item.email.messageId, item.email.subject, t⟩] }
      else phaseBRegexFallback st item
    | none => phaseBRegexFallback st item
  | none => phaseBRegexFallback st item

/-- The fallback-parse inputs built from the queued emails. -/
def needItemsToParse (needing : List NeedItem) : List EmailToParse :=
  needing.map fun item =>
    ⟨item.id, item.email.body, item.email.subject, item.email.date, item.email.bank⟩

/-- Pass 2: batch-invoke the LLM fallback when a key is configured,
otherwise fall back to the partial regex results. -/
def phaseB (env : JsEnv) (openaiApiKey : Option Str)
    (loracle : List EmailToParse → OracleOut (List BatchLLMItem))
    (needing : List NeedItem) (st : PhaseBState) : PhaseBState :=
  if needing.length ≠ 0 && jsKey openaiApiKey then
    let llmResults := batchParseLLMFallbackE env (needItemsToParse needing) openaiApiKey loracle
    needing.foldl (phaseBStep llmResults) st
  else if needing.length ≠ 0 then
    needing.foldl phaseBRegexFallback st
  else st

/-- The categorization inputs built from the accepted parses. -/
def syncCatInputs (parsedEmails : List ParsedEmailRec) : List CatTxIn :=
  parsedEmails.map fun e => ⟨e.id, e.parsed.merchant, e.parsed.amount, e.parsed.type⟩

/-- The default categorization used when the map misses an id
(`categorizationResults.get(email.id) || {...}`). -/
def defaultCatFor (pe : ParsedEmailRec) : CatResult :=
  ⟨none, pe.parsed.merchant, none, jqd 3 10⟩

/-- State of the pass-3 (insert) loop. -/
structure PhaseCState where
  duplicates : Nat
  newTransactions : Nat
  inserted : List TxRow
deriving DecidableEq, Repr

/-- The row inserted for an accepted, categorized email. -/
def rowOf (userId : Str) (pe : ParsedEmailRec) (categorization : CatResult) : TxRow :=
  ⟨pe.id, userId, pe.parsed.amount, str "INR", pe.parsed.type, pe.parsed.merchant,
   categorization.cleanMerchant, categorization.categoryId, categorization.subcategory,
   pe.parsed.date, pe.parsed.bank, pe.parsed.reference, some pe.emailMessageId,
   some pe.emailSubject, jmin pe.parsed.confidence categorization.confidence, false⟩

/-- One iteration of pass 3: re-check content-identity duplication against
everything persisted so far (including rows inserted earlier in this run),
then insert. -/
def phaseCStep (userId : Str) (db0 : List TxRow) (catMap : RMap CatResult)
    (st : PhaseCState) (pe : ParsedEmailRec) : PhaseCState :=
  let categorization := (mget catMap pe.id).getD (defaultCatFor pe)
  let db := db0 ++ st.inserted
  let existingByContent := db.any fun r =>
    r.userId = userId && r.amount = pe.parsed.amount
      && r.rawMerchant = pe.parsed.merchant && r.transactionDate = pe.parsed.date
  if existingByContent then { st with duplicates := st.duplicates + 1 }
  else
    { st with
      newTransactions := st.newTransactions + 1
      inserted := st.inserted ++ [rowOf userId pe categorization] }

/-- Pass 3 over all accepted parses. -/
def phaseC (userId : Str) (db0 : List TxRow) (catMap : RMap CatResult)
    (parsedEmails : List ParsedEmailRec) : PhaseCState :=
  parsedEmails.foldl (phaseCStep userId db0 catMap) ⟨0, 0, []⟩

/-- The aggregate counts a sync run reports. -/
structure SyncCounts where
  newTransactions : Nat
  duplicates : Nat
  errors : Nat
  totalProcessed : Nat
  regexParsed : Nat
  llmParsed : Nat
deriving DecidableEq, Repr

/-- A whole sync run (the `POST` handler's pipeline over the fetched
emails), parameterized by the regex parser `rp`; returns the reported
counts and the store after the run. -/
def syncRunWith (env : JsEnv) (userId : Str) (db0 : List TxRow)
    (cats : List CategoryE) (rp : FetchedEmail → RegexParseOut) (uuids : Nat → Str)
    (openaiApiKey : Option Str)
    (loracle : List EmailToParse → OracleOut (List BatchLLMItem))
    (coracle : List CatTxIn → OracleOut (List CatReplyItem))
    (emails : List FetchedEmail) : SyncCounts × List TxRow :=
  let a := phaseA db0 userId rp uuids emails
  let b := phaseB env openaiApiKey loracle a.needing ⟨a.regexParsed, 0, 0, a.parsedEmails⟩
  let catMap := batchCategorizeE (syncCatInputs b.parsedEmails) openaiApiKey cats coracle
  let c := phaseC userId db0 catMap b.parsedEmails
  (⟨c.newTransactions, a.duplicates + c.duplicates, b.errors, emails.length,
    b.regexParsed, b.llmParsed⟩, db0 ++ c.inserted)

/-- The sync run with the real regex parser. -/
def syncRun (env : JsEnv) (userId : Str) (db0 : List TxRow) (cats : List CategoryE)
    (uuids : Nat → Str) (openaiApiKey : Option Str)
    (loracle : List EmailToParse → OracleOut (List BatchLLMItem))
    (coracle : List CatTxIn → OracleOut (List CatReplyItem))
    (emails : List FetchedEmail) : SyncCounts × List TxRow :=
  syncRunWith env userId db0 cats
    (fun e => parseEmailWithRegexE env ⟨e.body, e.subject, e.date, e.bank⟩)
    uuids openaiApiKey loracle coracle emails

/-! ### Concrete fixtures used by examples, witnesses and counterexamples -/

/-- A concrete environment: identity HTML conversion, no native date
parsing, a constant `new Date(string)`, clock at day 20460 (early 2026),
reference year 2026. -/
def envFix : JsEnv :=
  ⟨fun s => s, fun _ => none, fun _ => ⟨1970, 1, 1⟩, jq 20460, 2026⟩

/-- The HDFC example body from the specification. -/
def zeptoBody : Str :=
  str "Rs.169.00 debited from your account to pinelabs.10372375@pineaxis ZEPTO MARKETPLACE PRIVATE LIMITED on 04-01-26"

/-- The HDFC example email. -/
def zeptoEmail : EmailIn := ⟨zeptoBody, str "subj", ⟨2026, 1, 4⟩, .hdfc⟩

/-- An environment whose clock sits ten days after 2025-01-05. -/
def envGenFix : JsEnv :=
  ⟨fun s => s, fun _ => none, fun _ => ⟨1970, 1, 1⟩, jq (civilDays ⟨2025, 1, 5⟩ + 10), 2025⟩

/-- A generic-bank email whose regex parse succeeds with confidence exactly
0.7 and merchant "ABC" (length 3): base 0.4 + amount 0.15 + recent date 0.1
+ one banking keyword 0.05. -/
def genEmailFix : EmailIn :=
  ⟨str "payment of Rs 500.00 at ABC on 05-01-2025 account", str "x", ⟨2025, 1, 1⟩, .icici⟩

/-- A single-email LLM oracle reply that parses successfully (merchant
"Bob"). -/
def llmReplyFix : OracleOut LLMReply :=
  .ok ⟨some (jq 5), some (str "debit"), some (str "Bob"), none, none⟩

/-- A batched-fallback input email. -/
def wEmail1 : EmailToParse := ⟨str "e1", str "body", str "subj", ⟨2025, 1, 5⟩, .hdfc⟩

/-- An LLM batch oracle that always throws. -/
def wOracleThrow : List EmailToParse → OracleOut (List BatchLLMItem) :=
  fun _ => .thrown (str "boom")

/-- A one-category catalog whose only entry is named "Other". -/
def catsOtherOnly : List CategoryE := [⟨str "c1", str "Other"⟩]

/-- A catalog with a valid category and an "Other" category. -/
def catsFoodOther : List CategoryE := [⟨str "food", str "Food"⟩, ⟨str "c1", str "Other"⟩]

/-- A categorization input item. -/
def catTx1 : CatTxIn := ⟨str "t1", str "M", 100, .debit⟩

/-- A categorization oracle replying with an invalid category id and
confidence 0.3 for item t1. -/
def catOracleInvalid : List CatTxIn → OracleOut (List CatReplyItem) :=
  fun _ => .ok [⟨str "t1", some (str "bogus"), some (str "M"), none, some (jqd 3 10)⟩]

/-- A categorization oracle replying with a valid category id and an
out-of-range confidence 2 for item t1. -/
def catOracleBig : List CatTxIn → OracleOut (List CatReplyItem) :=
  fun _ => .ok [⟨str "t1", some (str "food"), some (str "M"), none, some (jq 2)⟩]

/-- The spec's arbitration example: a deterministic result with confidence
0.9 and merchant "Acme". -/
def detAcme : ParserResult :=
  ⟨true, some ⟨100, .debit, str "Acme", ⟨2025, 1, 1⟩, none, .hdfc, jqd 9 10⟩,
   none, false⟩

/-- The spec's arbitration example: an LLM result with confidence 0.7. -/
def llmBob : ParserResult :=
  ⟨true, some ⟨100, .debit, str "Bob", ⟨2025, 1, 1⟩, none, .hdfc, jqd 7 10⟩,
   none, false⟩

/-- A persisted row marking message m1 as processed for user u. -/
def rowU : TxRow :=
  ⟨str "r1", str "u", 100, str "INR", .debit, str "M", str "M", none, none,
   ⟨2025, 1, 1⟩, .hdfc, none, some (str "m1"), none, jqd 7 10, false⟩

/-- A fetched email whose message id is already persisted. -/
def eDup : FetchedEmail := ⟨str "m1", str "s", str "b", ⟨2025, 1, 2⟩, .hdfc⟩

/-- An accepted parse record for the sync fixtures. -/
def pe1 : ParsedEmailRec :=
  ⟨str "p1", str "m2", str "s1",
   ⟨100, .debit, str "M", ⟨2025, 1, 1⟩, none, .hdfc, jqd 9 10⟩⟩

/-! ## Lemmas about the JS `Map` model -/

theorem mget_mrem_ne {β : Type} (m : RMap β) (k k2 : Str) (h : k2 ≠ k) :
    mget (mrem m k) k2 = mget m k2 := by
  induction m with
  | nil => rfl
  | cons p t ih =>
    by_cases hk : p.1 = k
    · have hp2 : p.1 ≠ k2 := fun hh => h (hh ▸ hk ▸ rfl)
      simp [mrem, mget, hk, hp2, ih, Ne.symm h]
    · by_cases hp : p.1 = k2
      · simp [mrem, mget, hk, hp, h]
      · simp [mrem, mget, hk, hp, ih, h]

theorem mget_mset_self {β : Type} (m : RMap β) (k : Str) (v : β) :
    mget (mset m k v) k = some v := by
  simp [mget, mset]

theorem mget_mset_ne {β : Type} (m : RMap β) (k k2 : Str) (v : β) (h : k2 ≠ k) :
    mget (mset m k v) k2 = mget m k2 := by
  have hk : k ≠ k2 := fun hh => h hh.symm
  simp [mget, mset, hk, mget_mrem_ne m k k2 h]

theorem mhas_mset {β : Type} (m : RMap β) (k k2 : Str) (v : β) :
    mhas (mset m k v) k2 = (decide (k2 = k) || mhas m k2) := by
  by_cases h : k2 = k
  · subst h
    simp [mhas, mget_mset_self]
  · simp [mhas, mget_mset_ne m k k2 v h, h]

theorem mkeys_mrem_mem {β : Type} (m : RMap β) (k x : Str)
    (h : x ∈ mkeys (mrem m k)) : x ∈ mkeys m := by
  induction m with
  | nil => simp [mrem, mkeys] at h
  | cons p t ih =>
    by_cases hk : p.1 = k
    · simp only [mrem, if_pos hk] at h
      exact List.mem_cons_of_mem _ (ih h)
    · simp only [mrem, if_neg hk, mkeys, List.map_cons, List.mem_cons] at h ⊢
      rcases h with h | h
      · exact Or.inl h
      · exact Or.inr (ih h)

theorem mkeys_mrem_notself {β : Type} (m : RMap β) (k : Str) :
    k ∉ mkeys (mrem m k) := by
  induction m with
  | nil => simp [mrem, mkeys]
  | cons p t ih =>
    by_cases hk : p.1 = k
    · simpa [mrem, hk] using ih
    · simp only [mrem, if_neg hk, mkeys, List.map_cons, List.mem_cons]
      rintro (h | h)
      · exact hk h.symm
      · exact ih h

theorem mkeys_nodup_mrem {β : Type} (m : RMap β) (k : Str)
    (h : (mkeys m).Nodup) : (mkeys (mrem m k)).Nodup := by
  induction m with
  | nil => simpa [mrem] using h
  | cons p t ih =>
    simp only [mkeys, List.map_cons, List.nodup_cons] at h
    by_cases hk : p.1 = k
    · simp only [mrem, if_pos hk]
      exact ih h.2
    · simp only [mrem, if_neg hk, mkeys, List.map_cons, List.nodup_cons]
      exact ⟨fun hm => h.1 (mkeys_mrem_mem t k p.1 hm), ih h.2⟩

theorem mkeys_nodup_mset {β : Type} (m : RMap β) (k : Str) (v : β)
    (h : (mkeys m).Nodup) : (mkeys (mset m k v)).Nodup := by
  simp only [mset, mkeys, List.map_cons, List.nodup_cons]
  exact ⟨mkeys_mrem_notself m k, mkeys_nodup_mrem m k h⟩

/-! ## C1: total coverage of the batched LLM fallback -/

theorem mhas_llmReplyFold_mono (env : JsEnv) (batch : List EmailToParse)
    (items : List BatchLLMItem) (m : RMap ParserResult) (id : Str)
    (h : mhas m id = true) :
    mhas (items.foldl (processLLMReplyItem env batch) m) id = true := by
  induction items generalizing m with
  | nil => simpa using h
  | cons r t ih =>
    refine ih _ ?_
    unfold processLLMReplyItem
    cases hfind : batch.find? (fun e => e.id = r.id) with
    | none => simpa using h
    | some email =>
      by_cases hf : (falsyQ r.amount || falsyS r.type || falsyS r.merchant) = true
      · simp [hfind, hf, mhas_mset, h]
      · simp only [Bool.not_eq_true] at hf
        simp [hfind, hf, mhas_mset, h]

theorem mhas_llmReplyFold_sub (env : JsEnv) (batch : List EmailToParse)
    (items : List BatchLLMItem) (m : RMap ParserResult) (id : Str)
    (h : mhas (items.foldl (processLLMReplyItem env batch) m) id = true) :
    mhas m id = true ∨ id ∈ batch.map (·.id) := by
  induction items generalizing m with
  | nil => exact Or.inl (by simpa using h)
  | cons r t ih =>
    rcases ih _ h with hh | hh
    · unfold processLLMReplyItem at hh
      cases hfind : batch.find? (fun e => e.id = r.id) with
      | none =>
        rw [hfind] at hh
        exact Or.inl hh
      | some email =>
        have hmem : id = r.id ∨ mhas m id = true := by
          by_cases hf : (falsyQ r.amount || falsyS r.type || falsyS r.merchant) = true
          · rw [hfind] at hh
            simp [hf, mhas_mset] at hh
            tauto
          · simp only [Bool.not_eq_true] at hf
            rw [hfind] at hh
            simp [hf, mhas_mset] at hh
            tauto
        rcases hmem with hmem | hmem
        · right
          subst hmem
          have := List.find?_some hfind
          have hm := List.mem_of_find?_eq_some hfind
          simp only [decide_eq_true_eq] at this
          exact List.mem_map.mpr ⟨email, hm, this⟩
        · exact Or.inl hmem
    · exact Or.inr hh

theorem mhas_fillBatchFailures (batch : List EmailToParse) (msg : Str)
    (m : RMap ParserResult) (id : Str) :
    mhas (fillBatchFailures batch msg m) id = true
      ↔ (mhas m id = true ∨ id ∈ batch.map (·.id)) := by
  unfold fillBatchFailures
  induction batch generalizing m with
  | nil => simp
  | cons e t ih =>
    simp only [List.foldl_cons, List.map_cons, List.mem_cons]
    by_cases hh : mhas m e.id = true
    · rw [if_pos hh, ih]
      constructor
      · rintro (h | h)
        · exact Or.inl h
        · exact Or.inr (Or.inr h)
      · rintro (h | h | h)
        · exact Or.inl h
        · exact Or.inl (h ▸ hh)
        · exact Or.inr h
    · rw [if_neg hh, ih]
      simp only [mhas_mset]
      constructor
      · rintro (h | h)
        · rcases Bool.or_eq_true_iff.mp h with h1 | h1
          · exact Or.inr (Or.inl (by simpa using h1))
          · exact Or.inl h1
        · exact Or.inr (Or.inr h)
      · rintro (h | h | h)
        · exact Or.inl (by simp [h])
        · exact Or.inl (by simp [h])
        · exact Or.inr h

theorem mkeys_nodup_llmReplyFold (env : JsEnv) (batch : List EmailToParse)
    (items : List BatchLLMItem) (m : RMap ParserResult)
    (h : (mkeys m).Nodup) :
    (mkeys (items.foldl (processLLMReplyItem env batch) m)).Nodup := by
  induction items generalizing m with
  | nil => simpa using h
  | cons r t ih =>
    refine ih _ ?_
    unfold processLLMReplyItem
    cases hfind : batch.find? (fun e => e.id = r.id) with
    | none => simpa using h
    | some email =>
      by_cases hf : (falsyQ r.amount || falsyS r.type || falsyS r.merchant) = true
      · simp only [hf]
        simpa using mkeys_nodup_mset _ _ _ h
      · simp only [Bool.not_eq_true] at hf
        simp only [hf]
        simpa using mkeys_nodup_mset _ _ _ h

theorem mkeys_nodup_fillBatchFailures (batch : List EmailToParse) (msg : Str)
    (m : RMap ParserResult) (h : (mkeys m).Nodup) :
    (mkeys (fillBatchFailures batch msg m)).Nodup := by
  unfold fillBatchFailures
  induction batch generalizing m with
  | nil => simpa using h
  | cons e t ih =>
    simp only [List.foldl_cons]
    by_cases hh : mhas m e.id = true
    · rw [if_pos hh]
      exact ih _ h
    · rw [if_neg hh]
      exact ih _ (mkeys_nodup_mset _ _ _ h)

theorem mhas_processLLMBatch (env : JsEnv)
    (oracle : List EmailToParse → OracleOut (List BatchLLMItem))
    (batch : List EmailToParse) (acc : RMap ParserResult) (id : Str) :
    mhas (processLLMBatch env oracle batch acc) id = true
      ↔ (mhas acc id = true ∨ id ∈ batch.map (·.id)) := by
  unfold processLLMBatch
  cases oracle batch with
  | ok items =>
    rw [mhas_fillBatchFailures]
    constructor
    · rintro (h | h)
      · exact mhas_llmReplyFold_sub env batch items acc id h
      · exact Or.inr h
    · rintro (h | h)
      · exact Or.inl (mhas_llmReplyFold_mono env batch items acc id h)
      · exact Or.inr h
  | empty => exact mhas_fillBatchFailures batch _ acc id
  | thrown e => exact mhas_fillBatchFailures batch _ acc id

theorem mkeys_nodup_processLLMBatch (env : JsEnv)
    (oracle : List EmailToParse → OracleOut (List BatchLLMItem))
    (batch : List EmailToParse) (acc : RMap ParserResult)
    (h : (mkeys acc).Nodup) :
    (mkeys (processLLMBatch env oracle batch acc)).Nodup := by
  unfold processLLMBatch
  cases oracle batch with
  | ok items =>
    exact mkeys_nodup_fillBatchFailures _ _ _ (mkeys_nodup_llmReplyFold env batch items acc h)
  | empty => exact mkeys_nodup_fillBatchFailures _ _ _ h
  | thrown e => exact mkeys_nodup_fillBatchFailures _ _ _ h

theorem mhas_llmBatchLoop (env : JsEnv)
    (oracle : List EmailToParse → OracleOut (List BatchLLMItem))
    (es : List EmailToParse) (acc : RMap ParserResult) (id : Str) :
    mhas (llmBatchLoop env oracle es acc) id = true
      ↔ (mhas acc id = true ∨ id ∈ es.map (·.id)) := by
  induction es, acc using llmBatchLoop.induct env oracle with
  | case1 acc0 => simp [llmBatchLoop]
  | case2 e es2 acc0 ih =>
    rw [llmBatchLoop, ih, mhas_processLLMBatch]
    have hsplit : (e :: es2).map (·.id)
        = ((e :: es2).take 25).map (·.id) ++ (es2.drop 24).map (·.id) := by
      rw [← List.map_append]
      congr 1
      have : es2.drop 24 = (e :: es2).drop 25 := rfl
      rw [this, List.take_append_drop]
    rw [hsplit, List.mem_append]
    tauto

theorem mkeys_nodup_llmBatchLoop (env : JsEnv)
    (oracle : List EmailToParse → OracleOut (List BatchLLMItem))
    (es : List EmailToParse) (acc : RMap ParserResult) :
    (mkeys acc).Nodup → (mkeys (llmBatchLoop env oracle es acc)).Nodup := by
  induction es, acc using llmBatchLoop.induct env oracle with
  | case1 acc0 =>
    intro h
    simpa [llmBatchLoop] using h
  | case2 e es2 acc0 ih =>
    intro h
    rw [llmBatchLoop]
    exact ih (mkeys_nodup_processLLMBatch env oracle _ _ h)

theorem mget_foldl_const_notin {β : Type} (es : List EmailToParse)
    (m : RMap β) (f : EmailToParse → β) (id : Str)
    (h : id ∉ es.map (·.id)) :
    mget (es.foldl (fun m2 em => mset m2 em.id (f em)) m) id = mget m id := by
  induction es generalizing m with
  | nil => rfl
  | cons e t ih =>
    simp only [List.map_cons, List.mem_cons, not_or] at h
    simp only [List.foldl_cons]
    rw [ih _ h.2, mget_mset_ne _ _ _ _ h.1]

theorem mget_foldl_const_in {β : Type} (es : List EmailToParse)
    (m : RMap β) (f : EmailToParse → β) (id : Str) (v : β)
    (hv : ∀ e ∈ es, e.id = id → f e = v)
    (h : id ∈ es.map (·.id)) :
    mget (es.foldl (fun m2 em => mset m2 em.id (f em)) m) id = some v := by
  induction es generalizing m with
  | nil => simp at h
  | cons e t ih =>
    simp only [List.foldl_cons]
    by_cases ht : id ∈ t.map (·.id)
    · exact ih _ (fun x hx => hv x (List.mem_cons_of_mem _ hx)) ht
    · have he : e.id = id := by
        simp only [List.map_cons, List.mem_cons] at h
        rcases h with h | h
        · exact h.symm
        · exact absurd h ht
      rw [mget_foldl_const_notin t _ _ _ ht, he,
        mget_mset_self, hv e (List.mem_cons_self e t) he]

/-- Claim C1: for every input list of emails and any oracle behaviour
(batches that throw, replies omitting ids, replies with foreign ids), the
batched LLM fallback returns a map holding exactly one outcome for every
input email id and no other ids; with no oracle credential every input id is
mapped to the "OpenAI API key not configured" failure, and the oracle is
never consulted (the result is identical for any two oracles). -/
theorem C1_batch_fallback_total_coverage (env : JsEnv)
    (emails : List EmailToParse) (key : Option Str)
    (oracle oracle2 : List EmailToParse → OracleOut (List BatchLLMItem)) :
    (mkeys (batchParseLLMFallbackE env emails key oracle)).Nodup
    ∧ (∀ id, mhas (batchParseLLMFallbackE env emails key oracle) id = true
        ↔ id ∈ emails.map (·.id))
    ∧ (∀ e ∈ emails, mget (batchParseLLMFallbackE env emails none oracle) e.id
        = some (batchFailP (str "OpenAI API key not configured")))
    ∧ batchParseLLMFallbackE env emails none oracle
        = batchParseLLMFallbackE env emails none oracle2 := by
  refine ⟨?_, ?_, ?_, ?_⟩
  · unfold batchParseLLMFallbackE
    by_cases hk : (!jsKey key || emails.length = 0) = true
    · rw [if_pos hk]
      have : ∀ (es : List EmailToParse) (m : RMap ParserResult), (mkeys m).Nodup →
          (mkeys (es.foldl (fun m2 em =>
            mset m2 em.id (batchFailP (str "OpenAI API key not configured"))) m)).Nodup := by
        intro es
        induction es with
        | nil => intro m hm; simpa using hm
        | cons e t ih =>
          intro m hm
          exact ih _ (mkeys_nodup_mset _ _ _ hm)
      exact this emails mempty (by simp [mkeys, mempty])
    · rw [if_neg hk]
      exact mkeys_nodup_llmBatchLoop env oracle emails mempty (by simp [mkeys, mempty])
  · intro id
    unfold batchParseLLMFallbackE
    by_cases hk : (!jsKey key || emails.length = 0) = true
    · rw [if_pos hk]
      have : ∀ (es : List EmailToParse) (m : RMap ParserResult),
          mhas (es.foldl (fun m2 em =>
            mset m2 em.id (batchFailP (str "OpenAI API key not configured"))) m) id = true
          ↔ (mhas m id = true ∨ id ∈ es.map (·.id)) := by
        intro es
        induction es with
        | nil => simp
        | cons e t ih =>
          intro m
          simp only [List.foldl_cons, List.map_cons, List.mem_cons]
          rw [ih]
          simp only [mhas_mset]
          constructor
          · rintro (h | h)
            · rcases Bool.or_eq_true_iff.mp h with h1 | h1
              · exact Or.inr (Or.inl (by simpa using h1))
              · exact Or.inl h1
            · exact Or.inr (Or.inr h)
          · rintro (h | h | h)
            · exact Or.inl (by simp [h])
            · exact Or.inl (by simp [h])
            · exact Or.inr h
      rw [this]
      simp [mhas, mget, mempty]
    · rw [if_neg hk]
      rw [mhas_llmBatchLoop]
      simp [mhas, mget, mempty]
  · intro e he
    unfold batchParseLLMFallbackE
    simp only [jsKey, Bool.not_false, Bool.true_or, if_pos]
    exact mget_foldl_const_in emails mempty _ e.id _ (fun x _ _ => rfl)
      (List.mem_map.mpr ⟨e, he, rfl⟩)
  · unfold batchParseLLMFallbackE
    simp [jsKey]

/-! ## C4: extracted amounts are positive integer paise -/

theorem findSome?_eq_some_split {α β : Type} (l : List α) (f : α → Option β) (b : β)
    (h : l.findSome? f = some b) :
    ∃ pre x post, l = pre ++ x :: post ∧ f x = some b ∧ ∀ y ∈ pre, f y = none := by
  induction l with
  | nil => simp at h
  | cons a t ih =>
    cases hfa : f a with
    | some v =>
      simp only [List.findSome?_cons, hfa] at h
      exact ⟨[], a, t, by simp, hfa.trans h, by simp⟩
    | none =>
      simp only [List.findSome?_cons, hfa] at h
      obtain ⟨pre, x, post, hl, hx, hpre⟩ := ih h
      refine ⟨a :: pre, x, post, by simp [hl], hx, ?_⟩
      intro y hy
      rcases List.mem_cons.mp hy with hy | hy
      · exact hy ▸ hfa
      · exact hpre y hy

/-- Characters allowed in the HDFC amount capture. -/
def amtChar (c : Char) : Prop := c.isDigit = true ∨ c = ',' ∨ c = '.'

theorem amtChar_not_space {a : Char} (ha : amtChar a) : isJsSpace a = false := by
  rcases ha with h | h | h
  · by_contra hc
    simp only [Bool.not_eq_false, isJsSpace, Bool.or_eq_true, decide_eq_true_eq] at hc
    rcases hc with ((((h1 | h1) | h1) | h1) | h1) | h1 <;> subst h1 <;> simp at h
  · subst h; decide
  · subst h; decide

theorem amtChar_not_sign {a : Char} (ha : amtChar a) : a ≠ '-' ∧ a ≠ '+' := by
  rcases ha with h | h | h
  · constructor <;> (intro hc; subst hc; simp at h)
  · subst h; exact ⟨by decide, by decide⟩
  · subst h; exact ⟨by decide, by decide⟩

theorem amtDecTail_classy (run rest : Str) (h : ∀ c ∈ run, amtChar c) :
    ∀ c ∈ amtDecTail run rest, amtChar c := by
  unfold amtDecTail
  split
  · next d1 d2 _ =>
    split
    · next hdd =>
      intro c hc
      rcases List.mem_append.mp hc with hc | hc
      · exact h c hc
      · simp only [Bool.and_eq_true] at hdd
        simp only [List.mem_cons, List.not_mem_nil, or_false] at hc
        rcases hc with hc | hc | hc
        · exact Or.inr (Or.inr hc)
        · exact Or.inl (hc ▸ hdd.1)
        · exact Or.inl (hc ▸ hdd.2)
    · exact h
  · exact h

theorem hdfcAmtBody_classy (u : Str) (cap : Str) (h : hdfcAmtBody u = some cap) :
    ∀ c ∈ cap, amtChar c := by
  unfold hdfcAmtBody at h
  simp only [] at h
  split at h
  · exact absurd h (by simp)
  · simp only [Option.some.injEq] at h
    subst h
    refine amtDecTail_classy _ _ ?_
    intro c hc
    have := List.mem_takeWhile_imp hc
    rcases Bool.or_eq_true_iff.mp this with h1 | h1
    · exact Or.inl h1
    · exact Or.inr (Or.inl (by simpa using h1))

theorem hdfcAmtHere_body (s cap : Str) (h : hdfcAmtHere s = some cap) :
    ∃ u, hdfcAmtBody u = some cap := by
  unfold hdfcAmtHere at h
  split at h
  · split at h
    · split at h
      · next t2 =>
        cases hb : hdfcAmtBody t2 with
        | some cap2 =>
          rw [hb] at h
          simp only [Option.orElse] at h
          exact ⟨t2, hb.trans h⟩
        | none =>
          rw [hb] at h
          simp only [Option.orElse] at h
          exact ⟨_, h⟩
      · exact ⟨_, h⟩
    · split at h
      · split at h
        · exact ⟨_, h⟩
        · exact absurd h (by simp)
      · exact absurd h (by simp)
  · exact absurd h (by simp)

theorem hdfcAmountCapture_classy (text cap : Str)
    (h : hdfcAmountCapture text = some cap) : ∀ c ∈ cap, amtChar c := by
  obtain ⟨pre, x, post, _, hx, _⟩ := findSome?_eq_some_split _ _ _ h
  obtain ⟨u, hu⟩ := hdfcAmtHere_body _ _ hx
  exact hdfcAmtBody_classy u cap hu

theorem rxReplaceAll_chars (ci : Bool) (r : Rx) (n : Nat) (s : Str) :
    ∀ c ∈ rxReplaceAll ci r [] n s, c ∈ s := by
  induction n generalizing s with
  | zero => intro c hc; simpa [rxReplaceAll] using hc
  | succ k ih =>
    intro c hc
    unfold rxReplaceAll at hc
    split at hc
    · exact hc
    · split at hc
      · exact hc
      · simp only [List.append_nil, List.nil_append, List.mem_append] at hc
        rcases hc with hc | hc
        · exact (List.take_sublist _ _).subset hc
        · exact (List.drop_sublist _ _).subset (ih _ c hc)

theorem rxGSub_chars (ci : Bool) (r : Rx) (s : Str) :
    ∀ c ∈ rxGSub ci r [] s, c ∈ s :=
  rxReplaceAll_chars ci r (s.length + 1) s

theorem jsPFexp_nonneg (mant : JQ) (s4 : Str) (h : 0 ≤ mant.n ∧ 0 < mant.d) :
    0 ≤ (jsPFexp mant s4).n ∧ 0 < (jsPFexp mant s4).d := by
  unfold jsPFexp
  split
  · split
    · split
      · exact h
      · split
        · exact ⟨h.1, mul_pos h.2 (by positivity)⟩
        · exact ⟨mul_nonneg h.1 (by positivity), h.2⟩
    · exact h
  · exact h

theorem jsPFmag_nonneg (s2 : Str) (q : JQ) (h : jsPFmag s2 = some q) :
    0 ≤ q.n ∧ 0 < q.d := by
  unfold jsPFmag at h
  split at h
  · exact absurd h (by simp)
  · simp only [Option.some.injEq] at h
    subst h
    refine jsPFexp_nonneg _ _ ⟨?_, ?_⟩
    · exact Int.ofNat_nonneg _
    · positivity

theorem jsParseFloat_classy_nonneg (s : Str) (hcl : ∀ c ∈ s, amtChar c) :
    ∀ q, jsParseFloat s = some q → 0 ≤ q.n ∧ 0 < q.d := by
  intro q hq
  have hdw : s.dropWhile isJsSpace = s := by
    cases s with
    | nil => rfl
    | cons a t =>
      rw [List.dropWhile_cons, amtChar_not_space (hcl a (by simp))]
      simp
  have hsign : splitSign s = (false, s) := by
    cases s with
    | nil => rfl
    | cons a t =>
      have hns := amtChar_not_sign (hcl a (by simp))
      unfold splitSign
      split
      · rename_i heq
        injection heq with h3 h4
        exact absurd h3 hns.1
      · rename_i heq
        injection heq with h3 h4
        exact absurd h3 hns.2
      · rfl
  unfold jsParseFloat at hq
  rw [hdw, hsign] at hq
  simp only [Bool.false_eq_true, if_false] at hq
  exact jsPFmag_nonneg s q hq

theorem jsRound_nonneg (x : JQ) (h1 : 0 ≤ x.n) (h2 : 0 < x.d) : 0 ≤ jsRound x := by
  unfold jsRound
  exact Int.fdiv_nonneg (by linarith) (by linarith)

theorem parseAmountE_round (cap : Str) (a : ℤ) (h : parseAmountE cap = some a) :
    ∃ q, jsParseFloat (parseAmountClean cap) = some q
      ∧ a = jsRound (jmul q (jq 100)) := by
  unfold parseAmountE at h
  split at h
  · exact absurd h (by simp)
  · split at h
    · exact absurd h (by simp)
    · rename_i q hq
      simp only [Option.some.injEq] at h
      exact ⟨q, hq, h.symm⟩

theorem amtTry_spec (text : Str) (p : Bool × Rx) (r : AmountRaw)
    (h : amtTry text p = some r) :
    0 < r.amount ∧ ∃ m cap, rxSearch p.1 p.2 text = some m
      ∧ capGet m.caps 1 = some cap ∧ parseAmountE cap = some r.amount
      ∧ r.raw = m.matched := by
  unfold amtTry at h
  split at h
  · exact absurd h (by simp)
  · rename_i m hm
    split at h
    · exact absurd h (by simp)
    · rename_i cap hcap
      split at h
      · exact absurd h (by simp)
      · rename_i a ha
        split at h
        · rename_i hpos
          simp only [Option.some.injEq] at h
          subst h
          exact ⟨hpos, m, cap, hm, hcap, ha, rfl⟩
        · exact absurd h (by simp)

theorem extractAmountE_pos (text : Str) (r : AmountRaw)
    (h : extractAmountE text = some r) : 0 < r.amount := by
  obtain ⟨pre, p, post, _, hx, _⟩ := findSome?_eq_some_split _ _ _ h
  exact (amtTry_spec text p r hx).1

theorem hdfcAmount1_nonneg (text : Str) (a : ℤ) (h : hdfcAmount1 text = some a) :
    0 ≤ a := by
  unfold hdfcAmount1 at h
  split at h
  · rename_i cap hcap
    cases hq : jsParseFloat (rxGSub false (.lit ',') [] cap) with
    | none => rw [hq] at h; exact absurd h (by simp)
    | some q =>
      rw [hq] at h
      simp only [Option.map, Option.some.injEq] at h
      subst h
      have hcl : ∀ c ∈ rxGSub false (.lit ',') [] cap, amtChar c := fun c hc =>
        hdfcAmountCapture_classy text cap hcap c (rxGSub_chars false (.lit ',') cap c hc)
      have hnn := jsParseFloat_classy_nonneg _ hcl q hq
      refine jsRound_nonneg _ ?_ ?_
      · simpa [jmul, jq] using mul_nonneg hnn.1 (by norm_num : (0 : ℤ) ≤ 100)
      · simpa [jmul, jq] using hnn.2
  · exact absurd h (by simp)

theorem hdfcAmount2_pos (text : Str) (a : ℤ) (h : hdfcAmount2 text = some a)
    (h0 : a ≠ 0) : 0 < a := by
  unfold hdfcAmount2 at h
  split at h
  · split at h
    · rename_i r hr
      simp only [Option.some.injEq] at h
      exact h ▸ extractAmountE_pos text r hr
    · exact lt_of_le_of_ne (hdfcAmount1_nonneg text a h) (Ne.symm h0)
  · exact lt_of_le_of_ne (hdfcAmount1_nonneg text a h) (Ne.symm h0)

theorem parseHDFC_amount_pos (env : JsEnv) (body subject : Str) (d : SDate)
    (t : ParsedTransaction)
    (h : (parseHDFCEmailE env body subject d).transaction = some t) :
    0 < t.amount := by
  unfold parseHDFCEmailE at h
  simp only [] at h
  split at h
  · exact absurd h (by simp [failP])
  · split at h
    · exact absurd h (by simp [failP])
    · split at h
      · exact absurd h (by simp [failP])
      · rename_i amount ham
        split at h
        · exact absurd h (by simp [failP])
        · rename_i h0
          simp only [Option.some.injEq] at h
          subst h
          exact hdfcAmount2_pos _ amount ham h0

theorem parseSIB_amount_pos (env : JsEnv) (body subject : Str) (d : SDate)
    (t : ParsedTransaction)
    (h : (parseSIBEmailE env body subject d).transaction = some t) :
    0 < t.amount := by
  unfold parseSIBEmailE at h
  simp only [] at h
  split at h
  · exact absurd h (by simp [failP])
  · split at h
    · exact absurd h (by simp [failP])
    · rename_i r hr
      simp only [Option.some.injEq] at h
      subst h
      exact extractAmountE_pos _ r hr

theorem parseGeneric_amount_pos (env : JsEnv) (body subject : Str) (d : SDate)
    (bank : Bank) (t : ParsedTransaction)
    (h : (parseGenericBankEmailE env body subject d bank).transaction = some t) :
    0 < t.amount := by
  unfold parseGenericBankEmailE at h
  simp only [] at h
  split at h
  · exact absurd h (by simp [failP])
  · split at h
    · exact absurd h (by simp [failP])
    · rename_i r hr
      simp only [Option.some.injEq] at h
      subst h
      cases hx : extractAmountE (extractEmailText env body) with
      | some r2 =>
        rw [hx] at hr
        simp only [Option.orElse, Option.some.injEq] at hr
        exact hr ▸ extractAmountE_pos _ r2 hx
      | none =>
        rw [hx] at hr
        simp only [Option.orElse] at hr
        exact extractAmountE_pos _ r hr

/-- Claim C4: whenever any parser (HDFC, SIB, Generic) or the shared amount
extractor succeeds, the amount is a strictly positive integer number of
paise; the extractor's value is `round(value * 100)` of the float parsed
from the first satisfying pattern's capture, non-numeric or non-positive
candidates having been rejected. -/
theorem C4_amounts_positive_integer_paise :
    (∀ text r, extractAmountE text = some r →
      0 < r.amount
        ∧ ∃ pre p post, amountPatterns = pre ++ p :: post
            ∧ (∀ p2 ∈ pre, amtTry text p2 = none)
            ∧ ∃ m cap q, rxSearch p.1 p.2 text = some m
                ∧ capGet m.caps 1 = some cap
                ∧ jsParseFloat (parseAmountClean cap) = some q
                ∧ r.amount = jsRound (jmul q (jq 100)))
    ∧ (∀ env body subject d t,
        (parseHDFCEmailE env body subject d).transaction = some t → 0 < t.amount)
    ∧ (∀ env body subject d t,
        (parseSIBEmailE env body subject d).transaction = some t → 0 < t.amount)
    ∧ (∀ env body subject d bank t,
        (parseGenericBankEmailE env body subject d bank).transaction = some t →
          0 < t.amount) := by
  refine ⟨?_, parseHDFC_amount_pos, parseSIB_amount_pos, parseGeneric_amount_pos⟩
  intro text r h
  obtain ⟨pre, p, post, hsplit, hx, hpre⟩ := findSome?_eq_some_split _ _ _ h
  obtain ⟨hpos, m, cap, hm, hcap, hpa, _⟩ := amtTry_spec text p r hx
  obtain ⟨q, hq, hround⟩ := parseAmountE_round cap r.amount hpa
  exact ⟨hpos, pre, p, post, hsplit, hpre, m, cap, q, hm, hcap, hq, hround⟩

/-- Witness for C4 at a concrete input. -/
theorem C4_amounts_positive_integer_paise_witness :
    extractAmountE (str "Rs 5.00") = some ⟨50000, str "Rs 5.00"⟩
      ∧ (0 : ℤ) < 50000 := by
  refine ⟨by decide, ?_⟩
  exact (C4_amounts_positive_integer_paise.1 (str "Rs 5.00") ⟨50000, str "Rs 5.00"⟩
    (by decide)).1

/-! ## Confidence bounds (C5, C10) -/

theorem jval_jmin_jq1_bounds (x : JQ) (hn : 0 ≤ x.n) (hd : 0 < x.d) :
    0 ≤ jval (jmin x (jq 1)) ∧ jval (jmin x (jq 1)) ≤ 1 := by
  unfold jmin jle jval jq
  split
  · next hle =>
    simp only [decide_eq_true_eq] at hle
    constructor
    · apply div_nonneg
      · exact_mod_cast hn
      · exact_mod_cast le_of_lt hd
    · rw [div_le_one (by exact_mod_cast hd)]
      exact_mod_cast (by linarith : x.n ≤ x.d)
  · norm_num

theorem calcConfidenceHS_bounds (nowDays : JQ) (amount : ℤ) (merchant : Str)
    (date : SDate) :
    0 ≤ jval (calcConfidenceHS nowDays amount merchant date)
      ∧ jval (calcConfidenceHS nowDays amount merchant date) ≤ 1 := by
  unfold calcConfidenceHS
  simp only []
  split <;> split <;> split <;>
    exact jval_jmin_jq1_bounds _ (by norm_num [jadd, jqd]) (by norm_num [jadd, jqd])

theorem jval_unit_of (c : JQ) (h1 : 0 ≤ c.n) (h2 : 0 < c.d) (h3 : c.n ≤ c.d) :
    0 ≤ jval c ∧ jval c ≤ 1 := by
  unfold jval
  constructor
  · apply div_nonneg
    · exact_mod_cast h1
    · exact_mod_cast le_of_lt h2
  · rw [div_le_one (by exact_mod_cast h2)]
    exact_mod_cast h3

set_option maxRecDepth 1000000 in
set_option maxHeartbeats 1000000 in
theorem calcConfidenceGen_spec (nowDays : JQ) (amount : ℤ) (merchant : Str)
    (date : SDate) (text : Str) :
    (0 ≤ jval (calcConfidenceGen nowDays amount merchant date text)
      ∧ jval (calcConfidenceGen nowDays amount merchant date text) ≤ 1)
    ∧ (jle (jqd 7 10) (calcConfidenceGen nowDays amount merchant date text) = true →
        jlt (jqd 7 10) (calcConfidenceGen nowDays amount merchant date text) = true) := by
  have hkw :
      (genBankKeywords.filter fun k => includesStr (toLowerStr text) k).length ≤ 4 := by
    have h := List.length_filter_le (fun k => includesStr (toLowerStr text) k)
      genBankKeywords
    simpa [genBankKeywords] using h
  unfold calcConfidenceGen
  simp only []
  generalize hkweq :
    (genBankKeywords.filter fun k => includesStr (toLowerStr text) k).length = kw
    at hkw ⊢
  split <;> split <;> split <;> interval_cases kw <;>
    exact ⟨jval_unit_of _ (by decide) (by decide) (by decide), by decide⟩

theorem calcConfidenceGen_bounds (nowDays : JQ) (amount : ℤ) (merchant : Str)
    (date : SDate) (text : Str) :
    0 ≤ jval (calcConfidenceGen nowDays amount merchant date text)
      ∧ jval (calcConfidenceGen nowDays amount merchant date text) ≤ 1 :=
  (calcConfidenceGen_spec nowDays amount merchant date text).1

theorem calcConfidenceHS_ge_7_10 (nowDays : JQ) (amount : ℤ) (merchant : Str)
    (date : SDate) (h : 0 < amount) :
    jlt (calcConfidenceHS nowDays amount merchant date) (jqd 7 10) = false
      ∧ 7/10 ≤ jval (calcConfidenceHS nowDays amount merchant date) := by
  unfold calcConfidenceHS
  simp only []
  split <;> (try split) <;>
    first
      | exact absurd h (by assumption)
      | (constructor <;> norm_num [jmin, jadd, jqd, jq, jle, jlt, jval])

theorem parseHDFC_conf_spec (env : JsEnv) (body subject : Str) (d : SDate)
    (t : ParsedTransaction)
    (h : (parseHDFCEmailE env body subject d).transaction = some t) :
    (0 ≤ jval t.confidence ∧ jval t.confidence ≤ 1)
      ∧ jlt t.confidence (jqd 7 10) = false ∧ 7/10 ≤ jval t.confidence := by
  unfold parseHDFCEmailE at h
  simp only [] at h
  split at h
  · exact absurd h (by simp [failP])
  · split at h
    · exact absurd h (by simp [failP])
    · split at h
      · exact absurd h (by simp [failP])
      · rename_i amount ham
        split at h
        · exact absurd h (by simp [failP])
        · rename_i h0
          simp only [Option.some.injEq] at h
          subst h
          have hpos := hdfcAmount2_pos _ amount ham h0
          exact ⟨calcConfidenceHS_bounds _ _ _ _,
            calcConfidenceHS_ge_7_10 _ _ _ _ hpos⟩

theorem parseSIB_conf_spec (env : JsEnv) (body subject : Str) (d : SDate)
    (t : ParsedTransaction)
    (h : (parseSIBEmailE env body subject d).transaction = some t) :
    (0 ≤ jval t.confidence ∧ jval t.confidence ≤ 1)
      ∧ jlt t.confidence (jqd 7 10) = false ∧ 7/10 ≤ jval t.confidence := by
  unfold parseSIBEmailE at h
  simp only [] at h
  split at h
  · exact absurd h (by simp [failP])
  · split at h
    · exact absurd h (by simp [failP])
    · rename_i r hr
      simp only [Option.some.injEq] at h
      subst h
      have hpos := extractAmountE_pos _ r hr
      exact ⟨calcConfidenceHS_bounds _ _ _ _,
        calcConfidenceHS_ge_7_10 _ _ _ _ hpos⟩

theorem parseGeneric_conf_bounds (env : JsEnv) (body subject : Str) (d : SDate)
    (bank : Bank) (t : ParsedTransaction)
    (h : (parseGenericBankEmailE env body subject d bank).transaction = some t) :
    0 ≤ jval t.confidence ∧ jval t.confidence ≤ 1 := by
  unfold parseGenericBankEmailE at h
  simp only [] at h
  split at h
  · exact absurd h (by simp [failP])
  · split at h
    · exact absurd h (by simp [failP])
    · rename_i r hr
      simp only [Option.some.injEq] at h
      subst h
      exact calcConfidenceGen_bounds _ _ _ _ _

/-- Claim C10: a successful HDFC or SIB parse always carries confidence at
least 0.7 (base 0.5 plus the amount increment 0.2), so the regex-only
triage pass flags such a parse for LLM fallback exactly when its merchant
is "Unknown" — the low-confidence disjunct is unreachable for these two
parsers. -/
theorem C10_hdfc_sib_confidence_triage :
    (∀ env body subject d t,
      (parseHDFCEmailE env body subject d).transaction = some t →
        7/10 ≤ jval t.confidence)
    ∧ (∀ env body subject d t,
      (parseSIBEmailE env body subject d).transaction = some t →
        7/10 ≤ jval t.confidence)
    ∧ (∀ env e t, (e.bank = Bank.hdfc ∨ e.bank = Bank.sib) →
        (parseEmailWithRegexE env e).res.success = true →
        (parseEmailWithRegexE env e).res.transaction = some t →
        ((parseEmailWithRegexE env e).needsLLMFallback = true
          ↔ t.merchant = str "Unknown")) := by
  refine ⟨fun env b s d t h => (parseHDFC_conf_spec env b s d t h).2.2,
    fun env b s d t h => (parseSIB_conf_spec env b s d t h).2.2, ?_⟩
  intro env e t hbank hsucc htr
  have hres : (parseEmailWithRegexE env e).res.transaction = (bankParse env e).transaction := rfl
  have hsucc2 : (parseEmailWithRegexE env e).res.success = (bankParse env e).success := rfl
  rw [hres] at htr
  rw [hsucc2] at hsucc
  have hlt : jlt t.confidence (jqd 7 10) = false := by
    rcases hbank with hb | hb
    · have : bankParse env e = parseHDFCEmailE env e.body e.subject e.date := by
        unfold bankParse
        rw [hb]
      rw [this] at htr
      exact (parseHDFC_conf_spec _ _ _ _ _ htr).2.1
    · have : bankParse env e = parseSIBEmailE env e.body e.subject e.date := by
        unfold bankParse
        rw [hb]
      rw [this] at htr
      exact (parseSIB_conf_spec _ _ _ _ _ htr).2.1
  have hneeds : (parseEmailWithRegexE env e).needsLLMFallback
      = needsLLMOf (bankParse env e) := rfl
  rw [hneeds]
  unfold needsLLMOf
  rw [htr, hsucc]
  simp [hlt]

set_option maxRecDepth 1000000 in
set_option maxHeartbeats 1000000 in
/-- Witness for C10 at the concrete HDFC example email. -/
theorem C10_hdfc_sib_confidence_triage_witness :
    (parseEmailWithRegexE envFix zeptoEmail).res.success = true
      ∧ ((parseEmailWithRegexE envFix zeptoEmail).needsLLMFallback = true
          ↔ (str "ZEPTO MARKETPLACE PRIVATE LIMITED") = str "Unknown") := by
  refine ⟨by decide, ?_⟩
  exact C10_hdfc_sib_confidence_triage.2.2 envFix zeptoEmail
    ⟨16900, .debit, str "ZEPTO MARKETPLACE PRIVATE LIMITED", ⟨2026, 1, 4⟩,
      some (str "UPI/pinelabs.10372375@pineaxis"), .hdfc, ⟨500, 500⟩⟩
    (Or.inl rfl) (by decide) (by decide)

/-- Witness for C1: with no credential, a concrete single-email batch maps
the email's id to the "not configured" failure (via the claim's third
conjunct, at a throwing oracle). -/
theorem C1_batch_fallback_total_coverage_witness :
    mget (batchParseLLMFallbackE envFix [wEmail1] none wOracleThrow) (str "e1")
      = some (batchFailP (str "OpenAI API key not configured")) :=
  (C1_batch_fallback_total_coverage envFix [wEmail1] none wOracleThrow
      wOracleThrow).2.2.1 wEmail1 (List.mem_singleton.mpr rfl)

/-! ## Lemmas about categorization outcomes (C5, C7) -/

theorem mget_mem_mvals {β : Type} (m : RMap β) (k : Str) (v : β)
    (h : mget m k = some v) : v ∈ mvals m := by
  induction m with
  | nil => exact absurd h (by simp [mget])
  | cons p t ih =>
    simp only [mget] at h
    split at h
    · injection h with h2
      exact List.mem_cons.mpr (Or.inl h2.symm)
    · exact List.mem_cons.mpr (Or.inr (ih h))

theorem mvals_mrem_sub {β : Type} (m : RMap β) (k : Str) :
    ∀ v ∈ mvals (mrem m k), v ∈ mvals m := by
  induction m with
  | nil => intro v hv; exact hv
  | cons p t ih =>
    intro v hv
    simp only [mrem] at hv
    by_cases hp : p.1 = k
    · rw [if_pos hp] at hv
      exact List.mem_cons.mpr (Or.inr (ih v hv))
    · rw [if_neg hp] at hv
      rcases List.mem_cons.mp hv with h | h
      · exact List.mem_cons.mpr (Or.inl h)
      · exact List.mem_cons.mpr (Or.inr (ih v h))

theorem mvals_mset_pred {β : Type} (P : β → Prop) (m : RMap β) (k : Str) (v : β)
    (hm : ∀ x ∈ mvals m, P x) (hv : P v) :
    ∀ x ∈ mvals (mset m k v), P x := by
  intro x hx
  rcases List.mem_cons.mp hx with h | h
  · subst h
    exact hv
  · exact hm x (mvals_mrem_sub m k x h)

/-- The unit-interval bound on a categorization outcome's confidence. -/
def confInUnit (r : CatResult) : Prop :=
  0 ≤ jval r.confidence ∧ jval r.confidence ≤ 1

/-- The oracle-side bound: every confidence carried by any structured
reply lies in the unit interval. -/
def oracleConfInUnit
    (oracle : List CatTxIn → OracleOut (List CatReplyItem)) : Prop :=
  ∀ b reply r q, oracle b = .ok reply → r ∈ reply → r.confidence = some q →
    0 ≤ jval q ∧ jval q ≤ 1

theorem safeDefaultCat_conf (cats : List CategoryE) (merchant : Str) :
    confInUnit (safeDefaultCat cats merchant) := by
  unfold confInUnit safeDefaultCat
  norm_num [jval, jqd]

theorem catReplyValue_conf (cats : List CategoryE) (batch : List CatTxIn)
    (r : CatReplyItem)
    (hq : ∀ q, r.confidence = some q → 0 ≤ jval q ∧ jval q ≤ 1) :
    confInUnit (catReplyValue cats batch r) := by
  have hc : (catReplyValue cats batch r).confidence
      = if validCat cats r then jsOrQ r.confidence (jqd 7 10) else jqd 1 2 := rfl
  unfold confInUnit
  rw [hc]
  split
  · unfold jsOrQ
    split
    · rename_i q hq2
      split
      · norm_num [jval, jqd]
      · exact hq q hq2
    · norm_num [jval, jqd]
  · norm_num [jval, jqd]

theorem catReplyFold_conf (cats : List CategoryE) (batch : List CatTxIn)
    (reply : List CatReplyItem) (m : RMap CatResult)
    (hq : ∀ r ∈ reply, ∀ q, r.confidence = some q → 0 ≤ jval q ∧ jval q ≤ 1) :
    (∀ x ∈ mvals m, confInUnit x) →
    ∀ x ∈ mvals (reply.foldl (processCatReplyItem cats batch) m), confInUnit x := by
  induction reply generalizing m with
  | nil => intro hm; exact hm
  | cons r t ih =>
    intro hm
    simp only [List.foldl_cons, processCatReplyItem]
    refine ih _ (fun r2 hr2 => hq r2 (List.mem_cons_of_mem r hr2)) ?_
    exact mvals_mset_pred confInUnit m r.id _
      hm (catReplyValue_conf cats batch r (hq r (List.mem_cons_self r t)))

theorem fillCatDefaults_conf (cats : List CategoryE) (batch : List CatTxIn)
    (m : RMap CatResult) :
    (∀ x ∈ mvals m, confInUnit x) →
    ∀ x ∈ mvals (fillCatDefaults cats batch m), confInUnit x := by
  unfold fillCatDefaults
  induction batch generalizing m with
  | nil => intro hm; exact hm
  | cons tx t ih =>
    intro hm
    simp only [List.foldl_cons]
    by_cases hh : mhas m tx.id = true
    · rw [if_pos hh]
      exact ih m hm
    · rw [if_neg hh]
      exact ih _ (mvals_mset_pred confInUnit m tx.id _ hm
        (safeDefaultCat_conf cats tx.merchant))

theorem processCatBatch_conf (cats : List CategoryE)
    (oracle : List CatTxIn → OracleOut (List CatReplyItem))
    (batch : List CatTxIn) (acc : RMap CatResult)
    (hor : oracleConfInUnit oracle)
    (hm : ∀ x ∈ mvals acc, confInUnit x) :
    ∀ x ∈ mvals (processCatBatch cats oracle batch acc), confInUnit x := by
  unfold processCatBatch
  split
  · rename_i reply hok
    exact fillCatDefaults_conf cats batch _
      (catReplyFold_conf cats batch reply acc
        (fun r hr q hq => hor batch reply r q hok hr hq) hm)
  · exact fillCatDefaults_conf cats batch acc hm
  · exact fillCatDefaults_conf cats batch acc hm

theorem catBatchLoop_conf (cats : List CategoryE)
    (oracle : List CatTxIn → OracleOut (List CatReplyItem))
    (hor : oracleConfInUnit oracle) (txs : List CatTxIn) (acc : RMap CatResult) :
    (∀ x ∈ mvals acc, confInUnit x) →
    ∀ x ∈ mvals (catBatchLoop cats oracle txs acc), confInUnit x := by
  induction txs, acc using catBatchLoop.induct cats oracle with
  | case1 acc0 =>
    intro hm
    simpa [catBatchLoop] using hm
  | case2 t ts acc0 ih =>
    intro hm
    rw [catBatchLoop]
    exact ih (processCatBatch_conf cats oracle _ acc0 hor hm)

theorem batchCategorizeE_conf (txs : List CatTxIn) (key : Option Str)
    (cats : List CategoryE)
    (oracle : List CatTxIn → OracleOut (List CatReplyItem))
    (hor : oracleConfInUnit oracle) :
    ∀ x ∈ mvals (batchCategorizeE txs key cats oracle), confInUnit x := by
  unfold batchCategorizeE
  split
  · have : ∀ (ts : List CatTxIn) (m : RMap CatResult),
        (∀ x ∈ mvals m, confInUnit x) →
        ∀ x ∈ mvals (ts.foldl
          (fun m2 tx => mset m2 tx.id (safeDefaultCat cats tx.merchant)) m),
          confInUnit x := by
      intro ts
      induction ts with
      | nil => intro m hm; exact hm
      | cons tx t ih =>
        intro m hm
        simp only [List.foldl_cons]
        exact ih _ (mvals_mset_pred confInUnit m tx.id _ hm
          (safeDefaultCat_conf cats tx.merchant))
    exact this txs mempty (by simp [mvals, mempty])
  · exact catBatchLoop_conf cats oracle hor txs mempty (by simp [mvals, mempty])

/-- A single batch (nonempty, at most 100 items, truthy key) runs
`processCatBatch` once from the empty accumulator. -/
theorem batchCategorizeE_single (txs : List CatTxIn) (key : Option Str)
    (cats : List CategoryE)
    (oracle : List CatTxIn → OracleOut (List CatReplyItem))
    (hne : txs ≠ []) (hlen : txs.length ≤ 100) (hkey : jsKey key = true) :
    batchCategorizeE txs key cats oracle = processCatBatch cats oracle txs mempty := by
  unfold batchCategorizeE
  split
  · rename_i hcond
    rw [hkey] at hcond
    simp only [Bool.not_true, Bool.false_or, decide_eq_true_eq,
      List.length_eq_zero] at hcond
    exact absurd hcond hne
  · cases txs with
    | nil => exact absurd rfl hne
    | cons t ts =>
      rw [catBatchLoop]
      have h1 : (t :: ts).take 100 = t :: ts := List.take_of_length_le hlen
      have h2 : ts.drop 99 = [] := by
        refine List.drop_eq_nil_of_le ?_
        simp only [List.length_cons] at hlen
        omega
      rw [h1, h2, catBatchLoop]

theorem mget_catReplyFold_notin (cats : List CategoryE) (batch : List CatTxIn)
    (items : List CatReplyItem) (m : RMap CatResult) (k : Str)
    (h : ∀ x ∈ items, x.id ≠ k) :
    mget (items.foldl (processCatReplyItem cats batch) m) k = mget m k := by
  induction items generalizing m with
  | nil => rfl
  | cons r t ih =>
    simp only [List.foldl_cons, processCatReplyItem]
    rw [ih _ (fun x hx => h x (List.mem_cons_of_mem r hx))]
    exact mget_mset_ne m r.id k _ (Ne.symm (h r (List.mem_cons_self r t)))

theorem mget_catReplyFold_mem (cats : List CategoryE) (batch : List CatTxIn)
    (reply : List CatReplyItem) (m : RMap CatResult) (r : CatReplyItem) :
    r ∈ reply → (reply.map CatReplyItem.id).Nodup →
    mget (reply.foldl (processCatReplyItem cats batch) m) r.id
      = some (catReplyValue cats batch r) := by
  induction reply generalizing m with
  | nil => intro hr _; simp at hr
  | cons x t ih =>
    intro hr hnd
    simp only [List.map_cons, List.nodup_cons] at hnd
    simp only [List.foldl_cons, processCatReplyItem]
    rcases List.mem_cons.mp hr with h | h
    · subst h
      rw [mget_catReplyFold_notin cats batch t _ r.id ?_]
      · exact mget_mset_self m r.id _
      · intro y hy hyk
        exact hnd.1 (hyk ▸ List.mem_map_of_mem CatReplyItem.id hy)
    · exact ih _ h hnd.2

theorem mget_fillCatDefaults_of_has (cats : List CategoryE) (batch : List CatTxIn)
    (m : RMap CatResult) (k : Str) :
    mhas m k = true → mget (fillCatDefaults cats batch m) k = mget m k := by
  unfold fillCatDefaults
  induction batch generalizing m with
  | nil => intro _; rfl
  | cons tx t ih =>
    intro hk
    simp only [List.foldl_cons]
    by_cases hh : mhas m tx.id = true
    · rw [if_pos hh]
      exact ih m hk
    · rw [if_neg hh]
      have hne : tx.id ≠ k := fun he => hh (he ▸ hk)
      have h2 : mhas (mset m tx.id (safeDefaultCat cats tx.merchant)) k = true := by
        unfold mhas
        rw [mget_mset_ne m tx.id k _ (Ne.symm hne)]
        exact hk
      rw [ih _ h2, mget_mset_ne m tx.id k _ (Ne.symm hne)]

/-! ## C5: confidences lie in the unit interval -/

/-- Claim C5 (amended): every bank parser's confidence lies in the unit
interval unconditionally, and every categorization outcome's confidence
lies in the unit interval provided each confidence carried by an oracle
reply does; an unconstrained oracle reply can push a stored categorization
confidence outside the interval (see the counterexample). -/
theorem C5_confidences_unit_interval :
    (∀ env body subject d t,
      (parseHDFCEmailE env body subject d).transaction = some t →
        0 ≤ jval t.confidence ∧ jval t.confidence ≤ 1)
    ∧ (∀ env body subject d t,
      (parseSIBEmailE env body subject d).transaction = some t →
        0 ≤ jval t.confidence ∧ jval t.confidence ≤ 1)
    ∧ (∀ env body subject d bank t,
      (parseGenericBankEmailE env body subject d bank).transaction = some t →
        0 ≤ jval t.confidence ∧ jval t.confidence ≤ 1)
    ∧ (∀ txs key cats oracle, oracleConfInUnit oracle →
        ∀ k res, mget (batchCategorizeE txs key cats oracle) k = some res →
          0 ≤ jval res.confidence ∧ jval res.confidence ≤ 1) :=
  ⟨fun env b s d t h => (parseHDFC_conf_spec env b s d t h).1,
   fun env b s d t h => (parseSIB_conf_spec env b s d t h).1,
   fun env b s d bank t h => parseGeneric_conf_bounds env b s d bank t h,
   fun txs key cats oracle hor k res hres =>
     batchCategorizeE_conf txs key cats oracle hor res (mget_mem_mvals _ k res hres)⟩

/-- Counterexample to C5 as stated: a structured reply carrying a valid
category id and confidence 2 is stored unclamped, so the categorization
confidence escapes the unit interval. -/
theorem C5_confidences_unit_interval_cex :
    mget (batchCategorizeE [catTx1] (some (str "k")) catsFoodOther catOracleBig)
        (str "t1")
      = some ⟨some (str "food"), str "M", none, jq 2⟩
    ∧ ¬ jval (jq 2) ≤ 1 := by
  constructor
  · rw [batchCategorizeE_single [catTx1] (some (str "k")) catsFoodOther catOracleBig
      (by decide) (by decide) (by decide)]
    decide
  · norm_num [jval, jq]

/-- Witness for C5: the categorizer conjunct applied at a concrete run
with an empty-reply oracle. -/
theorem C5_confidences_unit_interval_witness :
    0 ≤ jval (safeDefaultCat catsOtherOnly (str "M")).confidence
      ∧ jval (safeDefaultCat catsOtherOnly (str "M")).confidence ≤ 1 :=
  C5_confidences_unit_interval.2.2.2 [catTx1] (some (str "k")) catsOtherOnly
    (fun _ => OracleOut.empty)
    (fun _ _ _ _ hok => OracleOut.noConfusion hok)
    (str "t1") (safeDefaultCat catsOtherOnly (str "M"))
    (by
      rw [batchCategorizeE_single [catTx1] (some (str "k")) catsOtherOnly
        (fun _ => OracleOut.empty) (by decide) (by decide) (by decide)]
      decide)

/-! ## C7: invalid category ids are coerced to Other at confidence 0.5 -/

/-- Claim C7 (amended): when a structured reply record names a category id
absent from the live catalog, the single-batch categorization engine stores
that record with categoryId coerced to the catalog's Other id (or null) and
confidence set to exactly 0.5 — never above 0.5, but a reply confidence
already below 0.5 is overwritten rather than preserved (see the
counterexample). -/
theorem C7_invalid_category_other_half (txs : List CatTxIn) (key : Option Str)
    (cats : List CategoryE)
    (oracle : List CatTxIn → OracleOut (List CatReplyItem))
    (reply : List CatReplyItem) (r : CatReplyItem) (cid : Str)
    (hne : txs ≠ []) (hlen : txs.length ≤ 100) (hkey : jsKey key = true)
    (hok : oracle txs = .ok reply) (hr : r ∈ reply)
    (hnd : (reply.map CatReplyItem.id).Nodup)
    (hcid : r.categoryId = some cid)
    (hmiss : ∀ c ∈ cats, c.id ≠ cid) :
    mget (batchCategorizeE txs key cats oracle) r.id
      = some (catReplyValue cats txs r)
    ∧ (catReplyValue cats txs r).categoryId = otherIdOrNull cats
    ∧ (catReplyValue cats txs r).confidence = jqd 1 2
    ∧ jval (catReplyValue cats txs r).confidence = 1 / 2 := by
  have hv : validCat cats r = false := by
    unfold validCat
    rw [hcid]
    show (cats.any fun c => c.id = cid) = false
    cases hany : cats.any fun c => c.id = cid with
    | false => rfl
    | true =>
      rcases List.any_eq_true.mp hany with ⟨c, hc, hcc⟩
      exact absurd (of_decide_eq_true hcc) (hmiss c hc)
  have hcat : (catReplyValue cats txs r).categoryId
      = if validCat cats r then r.categoryId else otherIdOrNull cats := rfl
  have hconf : (catReplyValue cats txs r).confidence
      = if validCat cats r then jsOrQ r.confidence (jqd 7 10) else jqd 1 2 := rfl
  have hin := mget_catReplyFold_mem cats txs reply mempty r hr hnd
  refine ⟨?_, ?_, ?_, ?_⟩
  · rw [batchCategorizeE_single txs key cats oracle hne hlen hkey]
    show mget (processCatBatch cats oracle txs mempty) r.id = _
    unfold processCatBatch
    rw [hok]
    show mget (fillCatDefaults cats txs
      (reply.foldl (processCatReplyItem cats txs) mempty)) r.id = _
    rw [mget_fillCatDefaults_of_has cats txs _ r.id (by unfold mhas; rw [hin]; rfl)]
    exact hin
  · rw [hcat, hv]
    rfl
  · rw [hconf, hv]
    rfl
  · rw [hconf, hv]
    norm_num [jval, jqd]

/-- Counterexample to C7 as stated: the reply confidence 0.3 — already
below 0.5 — is not preserved; the engine stores exactly 0.5. -/
theorem C7_invalid_category_other_half_cex :
    mget (batchCategorizeE [catTx1] (some (str "k")) catsOtherOnly catOracleInvalid)
        (str "t1")
      = some ⟨some (str "c1"), str "M", none, jqd 1 2⟩
    ∧ jval (jqd 3 10) < jval (jqd 1 2) := by
  constructor
  · rw [batchCategorizeE_single [catTx1] (some (str "k")) catsOtherOnly
      catOracleInvalid (by decide) (by decide) (by decide)]
    decide
  · norm_num [jval, jqd]

/-- Witness for C7 at a concrete invalid-category reply. -/
theorem C7_invalid_category_other_half_witness :
    mget (batchCategorizeE [catTx1] (some (str "k")) catsOtherOnly catOracleInvalid)
        (str "t1")
      = some (catReplyValue catsOtherOnly [catTx1]
          ⟨str "t1", some (str "bogus"), some (str "M"), none, some (jqd 3 10)⟩)
    ∧ jval (catReplyValue catsOtherOnly [catTx1]
          ⟨str "t1", some (str "bogus"), some (str "M"), none,
            some (jqd 3 10)⟩).confidence = 1 / 2 := by
  have h := C7_invalid_category_other_half [catTx1] (some (str "k")) catsOtherOnly
    catOracleInvalid
    [⟨str "t1", some (str "bogus"), some (str "M"), none, some (jqd 3 10)⟩]
    ⟨str "t1", some (str "bogus"), some (str "M"), none, some (jqd 3 10)⟩
    (str "bogus")
    (by decide) (by decide) (by decide) rfl (List.mem_singleton.mpr rfl)
    (by decide) rfl (by decide)
  exact ⟨h.1, h.2.2.2⟩

/-! ## C3: arbitration between the deterministic and LLM results -/

/-- The decision formula of the arbitration: with a key configured and both
results successful, the deterministic result is returned exactly when its
merchant is not "Unknown" and either its confidence is at least 0.7 or
strictly greater than the LLM result's; otherwise the LLM result is
returned marked used. -/
theorem parseTransactionEmailArb_spec (result llm : ParserResult) (key : Option Str)
    (dt lt : ParsedTransaction) :
    result.success = true → result.transaction = some dt →
    llm.success = true → llm.transaction = some lt →
    jsKey key = true →
    parseTransactionEmailArb result key llm
      = if dt.merchant ≠ str "Unknown"
            ∧ (jle (jqd 7 10) dt.confidence = true
                ∨ jlt lt.confidence dt.confidence = true)
        then { result with usedLLM := false }
        else { llm with usedLLM := true } := by
  intro hds htx hls hltx hkey
  by_cases h2 : dt.merchant = str "Unknown"
  · simp [parseTransactionEmailArb, needsLLMOf, htx, hltx, hds, hls, hkey, h2]
  · by_cases h1 : jle (jqd 7 10) dt.confidence = true
    · simp [parseTransactionEmailArb, needsLLMOf, htx, hltx, hds, hls, hkey, h1, h2]
    · have h1x : jlt dt.confidence (jqd 7 10) = true := by
        simp only [jle, jqd, decide_eq_true_eq] at h1
        simp only [jlt, jqd, decide_eq_true_eq]
        omega
      by_cases h3 : jlt lt.confidence dt.confidence = true
      · simp [parseTransactionEmailArb, needsLLMOf, htx, hltx, hds, hls, hkey,
          h1, h1x, h2, h3]
      · simp [parseTransactionEmailArb, needsLLMOf, htx, hltx, hds, hls, hkey,
          h1, h1x, h2, h3]

/-- A successful LLM fallback transaction carries the literal confidence
0.7. -/
theorem parseLLM_conf_7_10 (env : JsEnv) (body subject : Str) (d : SDate)
    (bank : Bank) (key : Option Str) (oracle : OracleOut LLMReply)
    (lt : ParsedTransaction)
    (h : (parseLLMFallbackE env body subject d bank key oracle).transaction
      = some lt) :
    lt.confidence = jqd 7 10 := by
  unfold parseLLMFallbackE at h
  split at h
  · exact absurd h (by simp)
  · split at h
    · exact absurd h (by simp)
    · exact absurd h (by simp)
    · split at h
      · exact absurd h (by simp)
      · simp only [] at h
        simp only [Option.some.injEq] at h
        subst h
        rfl

/-- The HDFC/SIB confidence is strictly above 0.7 when the amount is
positive and the merchant resolved: it is 0.9 or 1. -/
theorem calcConfidenceHS_strict (nowDays : JQ) (amount : ℤ) (merchant : Str)
    (date : SDate) (hpos : 0 < amount) (hm : merchant ≠ str "Unknown") :
    jlt (jqd 7 10) (calcConfidenceHS nowDays amount merchant date) = true := by
  unfold calcConfidenceHS
  simp only []
  split <;>
    first
      | exact absurd hpos (by assumption)
      | exact absurd hm (by assumption)
      | decide

set_option maxHeartbeats 1000000 in
theorem parseHDFC_conf_strict (env : JsEnv) (body subject : Str) (d : SDate)
    (t : ParsedTransaction)
    (h : (parseHDFCEmailE env body subject d).transaction = some t)
    (hm : t.merchant ≠ str "Unknown") :
    jlt (jqd 7 10) t.confidence = true := by
  unfold parseHDFCEmailE at h
  simp only [] at h
  split at h
  · exact absurd h (by simp [failP])
  · split at h
    · exact absurd h (by simp [failP])
    · split at h
      · exact absurd h (by simp [failP])
      · rename_i amount ham
        split at h
        · exact absurd h (by simp [failP])
        · rename_i h0
          simp only [Option.some.injEq] at h
          have hpos := hdfcAmount2_pos _ amount ham h0
          subst h
          simp only [] at hm ⊢
          exact calcConfidenceHS_strict _ _ _ _ hpos hm

set_option maxHeartbeats 1000000 in
theorem parseSIB_conf_strict (env : JsEnv) (body subject : Str) (d : SDate)
    (t : ParsedTransaction)
    (h : (parseSIBEmailE env body subject d).transaction = some t)
    (hm : t.merchant ≠ str "Unknown") :
    jlt (jqd 7 10) t.confidence = true := by
  unfold parseSIBEmailE at h
  simp only [] at h
  split at h
  · exact absurd h (by simp [failP])
  · split at h
    · exact absurd h (by simp [failP])
    · rename_i r hr
      simp only [Option.some.injEq] at h
      have hpos := extractAmountE_pos _ r hr
      subst h
      simp only [] at hm ⊢
      exact calcConfidenceHS_strict _ _ _ _ hpos hm

/-- A generic-parser confidence at least 0.7 is strictly above 0.7: the
binary64 sums are dyadic, never exactly 7/10. -/
theorem parseGeneric_conf_strict (env : JsEnv) (body subject : Str) (d : SDate)
    (bank : Bank) (t : ParsedTransaction)
    (h : (parseGenericBankEmailE env body subject d bank).transaction = some t)
    (hle : jle (jqd 7 10) t.confidence = true) :
    jlt (jqd 7 10) t.confidence = true := by
  unfold parseGenericBankEmailE at h
  simp only [] at h
  split at h
  · exact absurd h (by simp [failP])
  · split at h
    · exact absurd h (by simp [failP])
    · rename_i r hr
      simp only [Option.some.injEq] at h
      subst h
      simp only [] at hle ⊢
      exact (calcConfidenceGen_spec _ _ _ _ _).2 hle

/-- A successful deterministic parse whose merchant is resolved never has
confidence exactly 0.7: at least 0.7 implies strictly above 0.7 (HDFC and
SIB produce 0.9 or 1; the generic parser's binary64 sums are never exactly
0.7). -/
theorem bankParse_conf_strict (env : JsEnv) (e : EmailIn) (dt : ParsedTransaction)
    (htx : (bankParse env e).transaction = some dt)
    (hm : dt.merchant ≠ str "Unknown")
    (hle : jle (jqd 7 10) dt.confidence = true) :
    jlt (jqd 7 10) dt.confidence = true := by
  unfold bankParse at htx
  cases hb : e.bank
  all_goals rw [hb] at htx
  case hdfc => exact parseHDFC_conf_strict env e.body e.subject e.date dt htx hm
  case sib => exact parseSIB_conf_strict env e.body e.subject e.date dt htx hm
  all_goals exact parseGeneric_conf_strict env e.body e.subject e.date _ dt htx hle

/-- Claim C3: with a key configured, when both the deterministic parser and
the LLM fallback produce successful results, the deterministic result is
returned exactly when its confidence is strictly greater than the LLM
result's (always the literal 0.7) and its merchant is not "Unknown";
otherwise the LLM result is returned marked used.  The early-return at
confidence at least 0.7 never disagrees with the strict comparison, because
no successful parse with a resolved merchant carries confidence exactly
0.7 — in binary64 the generic parser's nominal 0.7 sums land strictly above
the 0.7 literal.  The spec's example — deterministic 0.9 "Acme" against LLM
0.7 — keeps the deterministic result. -/
theorem C3_arbitration_tiebreak :
    (∀ (env : JsEnv) (e : EmailIn) (key : Option Str) (oracle : OracleOut LLMReply)
        (dt lt : ParsedTransaction),
      jsKey key = true →
      (bankParse env e).success = true →
      (bankParse env e).transaction = some dt →
      (parseLLMFallbackE env e.body e.subject e.date e.bank key oracle).success
        = true →
      (parseLLMFallbackE env e.body e.subject e.date e.bank key oracle).transaction
        = some lt →
      (parseTransactionEmailE env e key oracle
          = { bankParse env e with usedLLM := false }
        ↔ jlt lt.confidence dt.confidence = true ∧ dt.merchant ≠ str "Unknown")
      ∧ (¬(jlt lt.confidence dt.confidence = true ∧ dt.merchant ≠ str "Unknown") →
          parseTransactionEmailE env e key oracle
            = { parseLLMFallbackE env e.body e.subject e.date e.bank key oracle
                with usedLLM := true }))
    ∧ parseTransactionEmailArb detAcme (some (str "k")) llmBob
        = { detAcme with usedLLM := false } := by
  constructor
  · intro env e key oracle dt lt hkey hds htx hls hltx
    have harb := parseTransactionEmailArb_spec (bankParse env e)
      (parseLLMFallbackE env e.body e.subject e.date e.bank key oracle) key dt lt
      hds htx hls hltx hkey
    have hE : parseTransactionEmailE env e key oracle
        = parseTransactionEmailArb (bankParse env e) key
            (parseLLMFallbackE env e.body e.subject e.date e.bank key oracle) := rfl
    have hlt7 : lt.confidence = jqd 7 10 :=
      parseLLM_conf_7_10 env e.body e.subject e.date e.bank key oracle lt hltx
    have hne : ({ parseLLMFallbackE env e.body e.subject e.date e.bank key oracle
          with usedLLM := true } : ParserResult)
        ≠ { bankParse env e with usedLLM := false } := by
      intro hEq
      have h2 := congrArg ParserResult.usedLLM hEq
      simp at h2
    rw [hE, harb]
    by_cases h2 : dt.merchant = str "Unknown"
    · have hC : ¬(dt.merchant ≠ str "Unknown"
          ∧ (jle (jqd 7 10) dt.confidence = true
              ∨ jlt lt.confidence dt.confidence = true)) := by
        intro hC
        exact hC.1 h2
      rw [if_neg hC]
      refine ⟨iff_of_false hne ?_, fun _ => rfl⟩
      intro hRhs
      exact hRhs.2 h2
    · by_cases h3 : jlt lt.confidence dt.confidence = true
      · have hC : dt.merchant ≠ str "Unknown"
            ∧ (jle (jqd 7 10) dt.confidence = true
                ∨ jlt lt.confidence dt.confidence = true) := ⟨h2, Or.inr h3⟩
        rw [if_pos hC]
        exact ⟨iff_of_true rfl ⟨h3, h2⟩, fun hn => absurd ⟨h3, h2⟩ hn⟩
      · have hC : ¬(dt.merchant ≠ str "Unknown"
            ∧ (jle (jqd 7 10) dt.confidence = true
                ∨ jlt lt.confidence dt.confidence = true)) := by
          rintro ⟨hm, hle | hstrict⟩
          · have := bankParse_conf_strict env e dt htx hm hle
            rw [hlt7] at h3
            exact h3 this
          · exact h3 hstrict
        rw [if_neg hC]
        refine ⟨iff_of_false hne ?_, fun _ => rfl⟩
        intro hRhs
        exact h3 hRhs.1
  · decide

set_option maxRecDepth 1000000 in
set_option maxHeartbeats 1000000 in
/-- Witness for C3 at a concrete pipeline input: the generic parser yields
merchant "ABC" with the binary64 confidence just above 0.7, the LLM
fallback succeeds with confidence 0.7, and the deterministic result is
kept. -/
theorem C3_arbitration_tiebreak_witness :
    parseTransactionEmailE envGenFix genEmailFix (some (str "k")) llmReplyFix
      = { bankParse envGenFix genEmailFix with usedLLM := false } :=
  ((C3_arbitration_tiebreak.1 envGenFix genEmailFix (some (str "k")) llmReplyFix
      ⟨5000000, .debit, str "ABC", ⟨2025, 1, 5⟩, none, .icici,
        ⟨6305039478318695, 9007199254740992⟩⟩
      ⟨500, .debit, str "Bob", ⟨2025, 1, 1⟩, none, .icici, jqd 7 10⟩
      (by decide) (by decide) (by decide) (by decide) (by decide)).1).mpr
    ⟨by decide, by decide⟩

/-! ## C8: the concrete Zepto HDFC example -/

set_option maxRecDepth 1000000 in
set_option maxHeartbeats 1000000 in
/-- Claim C8: the HDFC parser succeeds on the Zepto body and extracts
amount 16900 paise, type debit, merchant "ZEPTO MARKETPLACE PRIVATE
LIMITED" and reference "UPI/pinelabs.10372375@pineaxis". -/
theorem C8_zepto_hdfc_example :
    (parseHDFCEmailE envFix zeptoBody (str "subj") ⟨2026, 1, 4⟩).success = true
    ∧ (parseHDFCEmailE envFix zeptoBody (str "subj") ⟨2026, 1, 4⟩).transaction
      = some ⟨16900, .debit, str "ZEPTO MARKETPLACE PRIVATE LIMITED",
          ⟨2026, 1, 4⟩, some (str "UPI/pinelabs.10372375@pineaxis"), .hdfc,
          ⟨500, 500⟩⟩ := by
  exact ⟨by decide, by decide⟩

/-! ## C9: two-digit-year normalization -/

/-- Claim C9: after a format matches, `parseDate` repairs the year — a year
below 100 gets +2000, a year in 1900–1999 gets +100, a remaining year below
1900 gets +2000 — and the string "05-01-25" parses to 2025-01-05 for a
reference year of 2025. -/
theorem C9_two_digit_year_normalization :
    (∀ y : Int, (y < 100 → fixYear y = y + 2000)
      ∧ (1900 ≤ y → y < 2000 → fixYear y = y + 100)
      ∧ (100 ≤ y → y < 1900 → fixYear y = y + 2000))
    ∧ (∀ (env : JsEnv) (s : Str) (d : SDate), s ≠ [] →
        dfMatchFormats env.refYear (trimStr s) = some d →
        parseDateE env s = some (applyYearFix d))
    ∧ (∀ env : JsEnv, env.refYear = 2025 →
        parseDateE env (str "05-01-25") = some ⟨2025, 1, 5⟩) := by
  refine ⟨?_, ?_, ?_⟩
  · intro y
    refine ⟨fun h => ?_, fun h1 h2 => ?_, fun h1 h2 => ?_⟩ <;>
      (unfold fixYear; split_ifs <;> omega)
  · intro env s d hne hm
    unfold parseDateE
    rw [if_neg hne, hm]
  · intro env h
    unfold parseDateE
    rw [if_neg (by decide)]
    have hm : dfMatchFormats env.refYear (trimStr (str "05-01-25"))
        = some ⟨25, 1, 5⟩ := by
      rw [h]
      decide
    rw [hm]
    show some (applyYearFix ⟨25, 1, 5⟩) = some ⟨2025, 1, 5⟩
    decide

/-- Witness for C9: the year-repair cases and the date example at the
concrete fixture environment. -/
theorem C9_two_digit_year_normalization_witness :
    fixYear 25 = 25 + 2000 ∧ fixYear 1950 = 1950 + 100
      ∧ fixYear 1800 = 1800 + 2000
      ∧ parseDateE envGenFix (str "05-01-25") = some ⟨2025, 1, 5⟩ :=
  ⟨(C9_two_digit_year_normalization.1 25).1 (by norm_num),
   (C9_two_digit_year_normalization.1 1950).2.1 (by norm_num) (by norm_num),
   (C9_two_digit_year_normalization.1 1800).2.2 (by norm_num) (by norm_num),
   C9_two_digit_year_normalization.2.2 envGenFix rfl⟩

/-! ## Lemmas about the sync controller (C2, C6) -/

theorem phaseAStep_measure (db0 : List TxRow) (userId : Str)
    (rp : FetchedEmail → RegexParseOut) (uuids : Nat → Str)
    (st : PhaseAState) (e : FetchedEmail) :
    (phaseAStep db0 userId rp uuids st e).duplicates
      + (phaseAStep db0 userId rp uuids st e).parsedEmails.length
      + (phaseAStep db0 userId rp uuids st e).needing.length
      = st.duplicates + st.parsedEmails.length + st.needing.length + 1 := by
  unfold phaseAStep
  split
  · simp only []
    omega
  · simp only []
    split
    · split
      · simp only [List.length_append, List.length_cons, List.length_nil]
        omega
      · simp only [List.length_append, List.length_cons, List.length_nil]
        omega
    · simp only [List.length_append, List.length_cons, List.length_nil]
      omega

theorem phaseA_counts (db0 : List TxRow) (userId : Str)
    (rp : FetchedEmail → RegexParseOut) (uuids : Nat → Str)
    (emails : List FetchedEmail) :
    (phaseA db0 userId rp uuids emails).duplicates
      + (phaseA db0 userId rp uuids emails).parsedEmails.length
      + (phaseA db0 userId rp uuids emails).needing.length
      = emails.length := by
  unfold phaseA
  have key : ∀ (es : List FetchedEmail) (st : PhaseAState),
      (es.foldl (phaseAStep db0 userId rp uuids) st).duplicates
        + (es.foldl (phaseAStep db0 userId rp uuids) st).parsedEmails.length
        + (es.foldl (phaseAStep db0 userId rp uuids) st).needing.length
        = st.duplicates + st.parsedEmails.length + st.needing.length + es.length := by
    intro es
    induction es with
    | nil => intro st; simp
    | cons e t ih =>
      intro st
      simp only [List.foldl_cons, List.length_cons]
      rw [ih, phaseAStep_measure]
      omega
  rw [key]
  simp

theorem phaseBRegexFallback_measure (st : PhaseBState) (item : NeedItem) :
    (phaseBRegexFallback st item).errors
      + (phaseBRegexFallback st item).parsedEmails.length
      = st.errors + st.parsedEmails.length + 1 := by
  unfold phaseBRegexFallback
  split
  · simp only [List.length_append, List.length_cons, List.length_nil]
    omega
  · simp only []
    omega

theorem phaseBStep_measure (llm : RMap ParserResult) (st : PhaseBState)
    (item : NeedItem) :
    (phaseBStep llm st item).errors + (phaseBStep llm st item).parsedEmails.length
      = st.errors + st.parsedEmails.length + 1 := by
  unfold phaseBStep
  split
  · split
    · split
      · simp only [List.length_append, List.length_cons, List.length_nil]
        omega
      · exact phaseBRegexFallback_measure st item
    · exact phaseBRegexFallback_measure st item
  · exact phaseBRegexFallback_measure st item

theorem foldlB_measure (f : PhaseBState → NeedItem → PhaseBState)
    (hf : ∀ st item, (f st item).errors + (f st item).parsedEmails.length
        = st.errors + st.parsedEmails.length + 1)
    (items : List NeedItem) (st : PhaseBState) :
    (items.foldl f st).errors + (items.foldl f st).parsedEmails.length
      = st.errors + st.parsedEmails.length + items.length := by
  induction items generalizing st with
  | nil => simp
  | cons i t ih =>
    simp only [List.foldl_cons, List.length_cons]
    rw [ih (f st i), hf st i]
    omega

theorem phaseB_counts (env : JsEnv) (key : Option Str)
    (loracle : List EmailToParse → OracleOut (List BatchLLMItem))
    (needing : List NeedItem) (n : Nat) (pes : List ParsedEmailRec) :
    (phaseB env key loracle needing ⟨n, 0, 0, pes⟩).errors
      + (phaseB env key loracle needing ⟨n, 0, 0, pes⟩).parsedEmails.length
      = pes.length + needing.length := by
  unfold phaseB
  split
  · simp only []
    rw [foldlB_measure
      (phaseBStep (batchParseLLMFallbackE env (needItemsToParse needing) key loracle))
      (phaseBStep_measure
        (batchParseLLMFallbackE env (needItemsToParse needing) key loracle))
      needing ⟨n, 0, 0, pes⟩]
    simp
  · split
    · rw [foldlB_measure phaseBRegexFallback phaseBRegexFallback_measure
        needing ⟨n, 0, 0, pes⟩]
      simp
    · rename_i h2
      simp only [decide_eq_true_eq, ne_eq, not_not] at h2
      simp [h2]

theorem phaseCStep_counts (userId : Str) (db0 : List TxRow)
    (catMap : RMap CatResult) (st : PhaseCState) (pe : ParsedEmailRec) :
    (phaseCStep userId db0 catMap st pe).duplicates
      + (phaseCStep userId db0 catMap st pe).newTransactions
      = st.duplicates + st.newTransactions + 1 := by
  unfold phaseCStep
  simp only []
  split
  · simp only []
    omega
  · simp only []
    omega

theorem phaseC_counts (userId : Str) (db0 : List TxRow)
    (catMap : RMap CatResult) (pes : List ParsedEmailRec) :
    (phaseC userId db0 catMap pes).duplicates
      + (phaseC userId db0 catMap pes).newTransactions
      = pes.length := by
  unfold phaseC
  have key : ∀ (l : List ParsedEmailRec) (st : PhaseCState),
      (l.foldl (phaseCStep userId db0 catMap) st).duplicates
        + (l.foldl (phaseCStep userId db0 catMap) st).newTransactions
        = st.duplicates + st.newTransactions + l.length := by
    intro l
    induction l with
    | nil => intro st; simp
    | cons pe t ih =>
      intro st
      simp only [List.foldl_cons, List.length_cons]
      rw [ih, phaseCStep_counts]
      omega
  rw [key]
  simp

theorem foldlA_congr (db0 : List TxRow) (userId : Str)
    (rp1 rp2 : FetchedEmail → RegexParseOut) (uuids : Nat → Str)
    (emails : List FetchedEmail) (st : PhaseAState) :
    (∀ e ∈ emails, isEmailProcessedE db0 userId e.messageId = false →
      rp1 e = rp2 e) →
    emails.foldl (phaseAStep db0 userId rp1 uuids) st
      = emails.foldl (phaseAStep db0 userId rp2 uuids) st := by
  induction emails generalizing st with
  | nil => intro _; rfl
  | cons e t ih =>
    intro h
    simp only [List.foldl_cons]
    have hstep : phaseAStep db0 userId rp1 uuids st e
        = phaseAStep db0 userId rp2 uuids st e := by
      by_cases hd : isEmailProcessedE db0 userId e.messageId = true
      · unfold phaseAStep
        rw [if_pos hd, if_pos hd]
      · have hrp := h e (List.mem_cons_self e t)
          (by revert hd; cases isEmailProcessedE db0 userId e.messageId <;> simp)
        unfold phaseAStep
        rw [hrp]
    rw [hstep]
    exact ih _ (fun e2 he2 hne => h e2 (List.mem_cons_of_mem e he2) hne)

theorem phaseC_inserted_mem (userId : Str) (db0 : List TxRow)
    (catMap : RMap CatResult) (pes : List ParsedEmailRec) (st : PhaseCState) :
    ∀ row ∈ (pes.foldl (phaseCStep userId db0 catMap) st).inserted,
      row ∈ st.inserted
      ∨ ∃ pe ∈ pes,
          row = rowOf userId pe ((mget catMap pe.id).getD (defaultCatFor pe)) := by
  induction pes generalizing st with
  | nil => intro row hr; exact Or.inl hr
  | cons pe t ih =>
    intro row hr
    simp only [List.foldl_cons] at hr
    rcases ih _ row hr with h | ⟨pe2, hpe2, heq⟩
    · unfold phaseCStep at h
      simp only [] at h
      split at h
      · exact Or.inl h
      · rcases List.mem_append.mp h with h2 | h2
        · exact Or.inl h2
        · have heq2 : row
              = rowOf userId pe ((mget catMap pe.id).getD (defaultCatFor pe)) := by
            simpa using h2
          exact Or.inr ⟨pe, List.mem_cons_self pe t, heq2⟩
    · exact Or.inr ⟨pe2, List.mem_cons_of_mem pe hpe2, heq⟩

/-! ## C2: sync counts and duplicate skipping -/

/-- Claim C2: for every sync run, duplicates + newTransactions + errors is
at most totalProcessed (the number of fetched emails); a message-identity
duplicate is counted and otherwise skipped — the pass-1 state is unchanged
except for the duplicate count, mentioning no parser — and the whole run's
outcome is invariant under changing the parser on the already-persisted
emails, i.e. duplicates are never re-parsed. -/
theorem C2_sync_counts_dup_skip :
    (∀ env userId db0 cats rp uuids key loracle coracle emails,
      (syncRunWith env userId db0 cats rp uuids key loracle
          coracle emails).1.duplicates
        + (syncRunWith env userId db0 cats rp uuids key loracle
            coracle emails).1.newTransactions
        + (syncRunWith env userId db0 cats rp uuids key loracle
            coracle emails).1.errors
        ≤ (syncRunWith env userId db0 cats rp uuids key loracle
            coracle emails).1.totalProcessed)
    ∧ (∀ (db0 : List TxRow) (userId : Str) (rp : FetchedEmail → RegexParseOut)
        (uuids : Nat → Str) (st : PhaseAState) (e : FetchedEmail),
        isEmailProcessedE db0 userId e.messageId = true →
        phaseAStep db0 userId rp uuids st e
          = { st with duplicates := st.duplicates + 1 })
    ∧ (∀ env userId db0 cats rp1 rp2 uuids key loracle coracle emails,
        (∀ e ∈ emails, isEmailProcessedE db0 userId e.messageId = false →
          rp1 e = rp2 e) →
        syncRunWith env userId db0 cats rp1 uuids key loracle coracle emails
          = syncRunWith env userId db0 cats rp2 uuids key loracle coracle emails) := by
  refine ⟨?_, ?_, ?_⟩
  · intro env userId db0 cats rp uuids key loracle coracle emails
    have hA := phaseA_counts db0 userId rp uuids emails
    have hB := phaseB_counts env key loracle
      (phaseA db0 userId rp uuids emails).needing
      (phaseA db0 userId rp uuids emails).regexParsed
      (phaseA db0 userId rp uuids emails).parsedEmails
    have hC := phaseC_counts userId db0
      (batchCategorizeE (syncCatInputs (phaseB env key loracle
          (phaseA db0 userId rp uuids emails).needing
          ⟨(phaseA db0 userId rp uuids emails).regexParsed, 0, 0,
            (phaseA db0 userId rp uuids emails).parsedEmails⟩).parsedEmails)
        key cats coracle)
      (phaseB env key loracle (phaseA db0 userId rp uuids emails).needing
        ⟨(phaseA db0 userId rp uuids emails).regexParsed, 0, 0,
          (phaseA db0 userId rp uuids emails).parsedEmails⟩).parsedEmails
    simp only [syncRunWith]
    omega
  · intro db0 userId rp uuids st e h
    unfold phaseAStep
    rw [if_pos h]
  · intro env userId db0 cats rp1 rp2 uuids key loracle coracle emails h
    have hA : phaseA db0 userId rp1 uuids emails
        = phaseA db0 userId rp2 uuids emails := by
      unfold phaseA
      exact foldlA_congr db0 userId rp1 rp2 uuids emails ⟨0, 0, [], [], 0⟩ h
    simp only [syncRunWith]
    rw [hA]

/-- Witness for C2: a concrete already-persisted email is counted as a
duplicate and skipped. -/
theorem C2_sync_counts_dup_skip_witness :
    isEmailProcessedE [rowU] (str "u") eDup.messageId = true
    ∧ phaseAStep [rowU] (str "u") (fun _ => ⟨⟨false, none, none, false⟩, true⟩)
        (fun _ => str "x") ⟨0, 0, [], [], 0⟩ eDup
      = ⟨1, 0, [], [], 0⟩ := by
  refine ⟨by decide, ?_⟩
  rw [C2_sync_counts_dup_skip.2.1 [rowU] (str "u")
    (fun _ => ⟨⟨false, none, none, false⟩, true⟩) (fun _ => str "x")
    ⟨0, 0, [], [], 0⟩ eDup (by decide)]

/-! ## C6: persisted confidence is the min of parse and categorization -/

/-- Claim C6: every row inserted by pass 3 is the row built from an
accepted parse and its attached categorization (the map entry for its id,
or the 0.3 default), and its stored confidence is exactly
min(parse confidence, categorization confidence); the store after a full
run is the initial store plus exactly those pass-3 rows. -/
theorem C6_persisted_confidence_min :
    (∀ (userId : Str) (db0 : List TxRow) (catMap : RMap CatResult)
        (pes : List ParsedEmailRec),
      ∀ row ∈ (phaseC userId db0 catMap pes).inserted,
        ∃ pe ∈ pes,
          row = rowOf userId pe ((mget catMap pe.id).getD (defaultCatFor pe))
          ∧ row.confidence = jmin pe.parsed.confidence
              ((mget catMap pe.id).getD (defaultCatFor pe)).confidence)
    ∧ (∀ env userId db0 cats rp uuids key loracle coracle emails,
        (syncRunWith env userId db0 cats rp uuids key loracle coracle emails).2
          = db0 ++ (phaseC userId db0 (batchCategorizeE (syncCatInputs
              (phaseB env key loracle (phaseA db0 userId rp uuids emails).needing
                ⟨(phaseA db0 userId rp uuids emails).regexParsed, 0, 0,
                  (phaseA db0 userId rp uuids emails).parsedEmails⟩).parsedEmails)
              key cats coracle)
            (phaseB env key loracle (phaseA db0 userId rp uuids emails).needing
              ⟨(phaseA db0 userId rp uuids emails).regexParsed, 0, 0,
                (phaseA db0 userId rp uuids emails).parsedEmails⟩).parsedEmails).inserted) := by
  constructor
  · intro userId db0 catMap pes row hrow
    rcases phaseC_inserted_mem userId db0 catMap pes ⟨0, 0, []⟩ row hrow
      with h | ⟨pe, hpe, heq⟩
    · exact absurd h (by simp)
    · refine ⟨pe, hpe, heq, ?_⟩
      rw [heq]
      rfl
  · intro env userId db0 cats rp uuids key loracle coracle emails
    simp only [syncRunWith]

/-- Witness for C6 at a concrete insert with the default categorization. -/
theorem C6_persisted_confidence_min_witness :
    ∃ pe ∈ [pe1],
      rowOf (str "u") pe1 (defaultCatFor pe1)
        = rowOf (str "u") pe
            ((mget (mempty : RMap CatResult) pe.id).getD (defaultCatFor pe))
      ∧ (rowOf (str "u") pe1 (defaultCatFor pe1)).confidence
        = jmin pe.parsed.confidence
            ((mget (mempty : RMap CatResult) pe.id).getD (defaultCatFor pe)).confidence :=
  C6_persisted_confidence_min.1 (str "u") [] mempty [pe1]
    (rowOf (str "u") pe1 (defaultCatFor pe1)) (by decide)

end KV











